import Mathlib

/-!
Verification of the navigation core of an Alexa MP3 player backend.

The development shallowly embeds the TypeScript sources:
* the PartyKit server's storage accessors (`utils/db.ts`) as pure functions
  over a `Db` value holding the table contents in their query order;
* the resolve handlers (`handlers/resolve-handler.ts`);
* the Alexa AudioPlayer handlers (`handlers/alexa-handler.ts`) and response
  builders (`utils/alexa-response.ts`), including the base64 / JSON token
  codec (`btoa`/`atob`/`JSON.stringify`/`JSON.parse` are modelled in full);
* the Lambda Music-Skill handlers (`initiate.ts`, `get-next-item.ts`,
  `get-playable-content.ts`, `get-item`, `get-previous-item`) together with
  the thin PartyKit HTTP client (`partykit-client.ts`).

JavaScript-specific behaviours are modelled explicitly: `Option String`
plus `strTruthy` for falsy string checks, `Int` indices with `-1` sentinels
for `Array.prototype.indexOf`, out-of-range indexing returning `none`, and
`Except Unit` for thrown `TypeError`s that the HTTP route catches.
-/

/-! ## JavaScript-style helpers -/

/-- JS truthiness for an optional string: `undefined`/`null`/`""` are falsy. -/
def strTruthy : Option String → Option String
  | some s => if s = "" then none else some s
  | none => none

/-- `list[i]` for a JS (possibly negative) index: out of range is `undefined`. -/
def listGetInt (l : List String) (i : Int) : Option String :=
  if i < 0 then none else l.get? i.toNat

def jsIndexOfAux (x : String) : List String → Int → Int
  | [], _ => -1
  | y :: ys, i => if y = x then i else jsIndexOfAux x ys (i + 1)

/-- `Array.prototype.indexOf` on a string array: first index, `-1` if absent. -/
def jsIndexOf (l : List String) (x : String) : Int :=
  jsIndexOfAux x l 0

/-! ## Data model (`models/track.ts`, `models/artist.ts`, `models/playlist.ts`)

A `Db` value holds the rows each SQL query returns, already in the query's
ORDER BY order: `tracks` in `added_at DESC` (newest-added first) order,
`playlists` in `created_at DESC` order.  `Playlist.trackIds` is the
`playlist_tracks` relation in `position` order, as materialised by the
GROUP_CONCAT subquery of `getPlaylist`/`getPlaylists`. -/

structure Track where
  id : String
  title : String
  artist : String
  artistId : String
  album : String
  duration : Nat
  addedAt : String
deriving DecidableEq

structure Artist where
  id : String
  name : String
  keywords : String
deriving DecidableEq

structure Playlist where
  id : String
  name : String
  trackIds : List String
  createdAt : String
  updatedAt : String
deriving DecidableEq

structure Db where
  tracks : List Track
  artists : List Artist
  playlists : List Playlist
deriving DecidableEq

/-! ## Storage accessors (`utils/db.ts`) -/

/-- `SELECT * FROM tracks ORDER BY added_at DESC`. -/
def Db.getTracks (db : Db) : List Track := db.tracks

/-- `SELECT id FROM tracks ORDER BY added_at DESC`. -/
def Db.getTrackIds (db : Db) : List String := db.tracks.map (fun t => t.id)

/-- `SELECT * FROM tracks WHERE id = ?`. -/
def Db.getTrack (db : Db) (id : String) : Option Track :=
  db.tracks.find? (fun t => t.id = id)

/-- `SELECT * FROM tracks WHERE artist_id = ? ORDER BY added_at DESC`. -/
def Db.getTracksByArtistId (db : Db) (artistId : String) : List Track :=
  db.tracks.filter (fun t => t.artistId = artistId)

/-- `SELECT ... FROM playlists p WHERE p.id = ?` with the track-id subquery. -/
def Db.getPlaylist (db : Db) (id : String) : Option Playlist :=
  db.playlists.find? (fun p => p.id = id)

/-- `SELECT t.* FROM tracks t JOIN playlist_tracks pt ... ORDER BY pt.position`:
the playlist's ids in stored order, dropping ids whose track row is gone. -/
def Db.getPlaylistTracks (db : Db) (playlistId : String) : List Track :=
  match db.getPlaylist playlistId with
  | some pl => pl.trackIds.filterMap (fun tid => db.getTrack tid)
  | none => []

/-! ## Adjacency engine, Protocol B side (`alexa-handler.ts`, `findAdjacentTrack`) -/

inductive Direction where
  | next
  | previous
deriving DecidableEq

/-- The navigation state carried in `stream.token`
(`PlaybackToken` of `utils/alexa-response.ts`). -/
structure PlaybackToken where
  trackId : String
  context : String
deriving DecidableEq

/-- The ordered id sequence a context string resolves to inside
`findAdjacentTrack`: `playlist::p` reads the playlist (absent playlist is the
`none` early return), `artist::a` reads the artist's tracks, anything else the
full track list. -/
def contextTrackList (db : Db) (context : String) : Option (List String) :=
  if context.startsWith "playlist::" then
    (db.getPlaylist (context.drop 10)).map (fun pl => pl.trackIds)
  else if context.startsWith "artist::" then
    some ((db.getTracksByArtistId (context.drop 8)).map (fun t => t.id))
  else
    some db.getTrackIds

/-- Body of `findAdjacentTrack` generalised over the `trackId` runtime value:
`trackIdOpt = none` models a decoded token whose `trackId` field is not a
string (strict-equality `indexOf` then finds nothing). -/
def findAdjacentTrackCore (db : Db) (trackIdOpt : Option String)
    (context : String) (dir : Direction) : Option Track :=
  if context = "single" then none
  else
    match contextTrackList db context with
    | none => none
    | some trackList =>
      let currentIndex : Int :=
        match trackIdOpt with
        | some tid => jsIndexOf trackList tid
        | none => -1
      if currentIndex = -1 then none
      else
        let targetIndex : Int :=
          if dir = Direction.next then currentIndex + 1 else currentIndex - 1
        match listGetInt trackList targetIndex with
        | none => none
        | some targetId =>
          if targetId = "" then none
          else db.getTrack targetId

/-- `findAdjacentTrack` of `alexa-handler.ts` on a well-typed token. -/
def findAdjacentTrack (db : Db) (token : PlaybackToken) (dir : Direction) : Option Track :=
  findAdjacentTrackCore db (some token.trackId) token.context dir

/-! ## Resolve handlers, Protocol A server side (`resolve-handler.ts`) -/

/-- Body+status of the `/api/resolve` endpoint (`handleResolveEntity`).
`found`/`track`/`tracks`/`totalCount` mirror the JSON body fields; the second
component is the HTTP status. -/
structure ResolveResult where
  found : Bool
  track : Option Track
  tracks : Option (List Track)
  totalCount : Option Nat
deriving DecidableEq

def handleResolveEntity (db : Db) (entityId entityType : String) : ResolveResult × Nat :=
  if entityType = "ALL" ∨ (entityId = "" ∧ entityType = "") then
    let tracks := db.getTracks
    if tracks.length = 0 then (⟨false, none, none, none⟩, 404)
    else (⟨true, none, some tracks, some tracks.length⟩, 200)
  else if entityType = "TRACK" then
    match db.getTrack entityId with
    | none => (⟨false, none, none, none⟩, 404)
    | some track => (⟨true, some track, none, some 1⟩, 200)
  else if entityType = "ARTIST" then
    let tracks := db.getTracksByArtistId entityId
    if tracks.length = 0 then (⟨false, none, none, none⟩, 404)
    else (⟨true, none, some tracks, some tracks.length⟩, 200)
  else if entityType = "PLAYLIST" then
    match db.getPlaylist entityId with
    | none => (⟨false, none, none, none⟩, 404)
    | some _ =>
      let tracks := db.getPlaylistTracks entityId
      (⟨true, none, some tracks, some tracks.length⟩, 200)
  else
    (⟨false, none, none, none⟩, 400)

/-- The Lambda's `resolveEntity` client call: a non-2xx response (or transport
failure after retries) collapses to `found:false`. -/
def resolveEntity (db : Db) (entityId entityType : String) : ResolveResult :=
  let (body, status) := handleResolveEntity db entityId entityType
  if status = 200 then body else ⟨false, none, none, none⟩

/-- The id list `handleGetNextTrack`/`handleGetPreviousTrack` search:
a truthy `playlistId` selects the playlist's ids (absent playlist is the 404
early return), otherwise the full newest-first track-id list. -/
def resolvedList (db : Db) (playlistIdOpt : Option String) : Option (List String) :=
  match strTruthy playlistIdOpt with
  | some pid => (db.getPlaylist pid).map (fun pl => pl.trackIds)
  | none => some db.getTrackIds

inductive NextTrackResponse where
  | playlistNotFound
  | noNext
  | next (track : Track) (hasFurtherNext : Bool)
deriving DecidableEq

/-- `/api/next` (`handleGetNextTrack`). -/
def handleGetNextTrack (db : Db) (currentTrackId : String)
    (playlistIdOpt : Option String) : NextTrackResponse :=
  match resolvedList db playlistIdOpt with
  | none => .playlistNotFound
  | some trackList =>
    let currentIndex := jsIndexOf trackList currentTrackId
    if currentIndex = -1 ∨ (trackList.length : Int) - 1 ≤ currentIndex then .noNext
    else
      match listGetInt trackList (currentIndex + 1) with
      | none => .noNext
      | some nextTrackId =>
        if nextTrackId = "" then .noNext
        else
          match db.getTrack nextTrackId with
          | none => .noNext
          | some nextTrack =>
            .next nextTrack (decide (currentIndex + 1 < (trackList.length : Int) - 1))

inductive PrevTrackResponse where
  | playlistNotFound
  | noPrevious
  | prev (track : Track) (hasNext : Bool)
deriving DecidableEq

/-- `/api/previous` (`handleGetPreviousTrack`). -/
def handleGetPreviousTrack (db : Db) (currentTrackId : String)
    (playlistIdOpt : Option String) : PrevTrackResponse :=
  match resolvedList db playlistIdOpt with
  | none => .playlistNotFound
  | some trackList =>
    let currentIndex := jsIndexOf trackList currentTrackId
    if currentIndex ≤ 0 then .noPrevious
    else
      match listGetInt trackList (currentIndex - 1) with
      | none => .noPrevious
      | some prevTrackId =>
        if prevTrackId = "" then .noPrevious
        else
          match db.getTrack prevTrackId with
          | none => .noPrevious
          | some prevTrack =>
            .prev prevTrack (decide (currentIndex - 1 < (trackList.length : Int) - 1))

/-! ## Lambda queue-lifecycle handlers (`get-next-item.ts`, `get-previous-item`,
`get-item`) -/

/-- `GetItem.Response` payloads: `queueFinished` is the terminal body carrying
only `isQueueFinished:true` and no item (`buildQueueFinishedResponse`);
`item` carries the track, its stream URL, the NEXT-control flag and the
`isQueueFinished` field of `buildItemResponse`. -/
inductive ItemResponse where
  | queueFinished
  | item (track : Track) (mp3Url : String) (hasMore : Bool) (isQueueFinished : Bool)
deriving DecidableEq

/-- `handleGetNextItem`; `mkUrl` stands for `buildMp3Url`. -/
def handleGetNextItem (db : Db) (mkUrl : String → String)
    (currentItemIdOpt : Option String) : ItemResponse :=
  match strTruthy currentItemIdOpt with
  | none => .queueFinished
  | some currentItemId =>
    match handleGetNextTrack db currentItemId none with
    | .next track hasFurtherNext => .item track (mkUrl track.id) hasFurtherNext (!hasFurtherNext)
    | _ => .queueFinished

/-- `handleGetPreviousItem`. -/
def handleGetPreviousItem (db : Db) (mkUrl : String → String)
    (currentItemIdOpt : Option String) : ItemResponse :=
  match strTruthy currentItemIdOpt with
  | none => .queueFinished
  | some currentItemId =>
    match handleGetPreviousTrack db currentItemId none with
    | .prev track hasNext => .item track (mkUrl track.id) hasNext (!hasNext)
    | _ => .queueFinished

/-- `hasNext` as the Lambda's `getNextTrack` client reports it
(`result.hasNext ?? false`, with non-2xx collapsing to `false`). -/
def nextHasNext : NextTrackResponse → Bool
  | .next _ _ => true
  | _ => false

/-- `handleGetItem` (`get-playable-content.ts` file, GetItem handler):
re-resolve the same track id, then query `/api/next` only for the flag. -/
def handleGetItem (db : Db) (mkUrl : String → String)
    (currentItemIdOpt : Option String) : ItemResponse :=
  match strTruthy currentItemIdOpt with
  | none => .queueFinished
  | some currentItemId =>
    let result := resolveEntity db currentItemId "TRACK"
    if result.found = false then .queueFinished
    else
      match result.track with
      | none => .queueFinished
      | some track =>
        let hasMore := nextHasNext (handleGetNextTrack db track.id none)
        .item track (mkUrl track.id) hasMore (!hasMore)

/-! ## Base64 (`btoa` / `atob`)

`btoa` maps a string of code points ≤ 255 to standard base64 with padding
(any larger code unit raises, modelled as `none`).  `atob` implements the
WHATWG forgiving-base64 decode: strip ASCII whitespace, strip up to two
trailing `=` when the length is a multiple of four, reject length ≡ 1 mod 4
and characters outside the alphabet, and discard leftover bits. -/

def b64Alphabet : List Char :=
  "ABCDEFGHIJKLMNOPQRSTUVWXYZabcdefghijklmnopqrstuvwxyz0123456789+/".toList

def b64char (n : Nat) : Char := b64Alphabet.getD n '?'

def b64indexAux (c : Char) : List Char → Nat → Option Nat
  | [], _ => none
  | d :: ds, i => if d = c then some i else b64indexAux c ds (i + 1)

def b64index (c : Char) : Option Nat := b64indexAux c b64Alphabet 0

/-- Bytes to 6-bit groups, 3 bytes at a time (final 1/2 bytes give 2/3 groups). -/
def bytesToSextets : List Nat → List Nat
  | a :: b :: c :: rest =>
    a / 4 :: ((a % 4) * 16 + b / 16) :: ((b % 16) * 4 + c / 64) :: c % 64 :: bytesToSextets rest
  | [a, b] => [a / 4, (a % 4) * 16 + b / 16, (b % 16) * 4]
  | [a] => [a / 4, (a % 4) * 16]
  | [] => []

/-- 6-bit groups back to bytes, 4 groups at a time; a final group of 2/3
sextets yields 1/2 bytes, leftover low bits discarded (forgiving decode). -/
def sextetsToBytes : List Nat → List Nat
  | a :: b :: c :: d :: rest =>
    (a * 4 + b / 16) :: ((b % 16) * 16 + c / 4) :: ((c % 4) * 64 + d) :: sextetsToBytes rest
  | [a, b] => [a * 4 + b / 16]
  | [a, b, c] => [a * 4 + b / 16, (b % 16) * 16 + c / 4]
  | _ => []

def b64encodeBytes : List Nat → List Char
  | a :: b :: c :: rest =>
    b64char (a / 4) :: b64char ((a % 4) * 16 + b / 16) ::
      b64char ((b % 16) * 4 + c / 64) :: b64char (c % 64) :: b64encodeBytes rest
  | [a, b] => [b64char (a / 4), b64char ((a % 4) * 16 + b / 16), b64char ((b % 16) * 4), '=']
  | [a] => [b64char (a / 4), b64char ((a % 4) * 16), '=', '=']
  | [] => []

def btoa (s : String) : Option String :=
  if s.toList.all (fun c => c.toNat < 256) then
    some (String.mk (b64encodeBytes (s.toList.map Char.toNat)))
  else none

/-- ASCII whitespace stripped by forgiving-base64. -/
def isB64Ws (c : Char) : Bool :=
  c = ' ' ∨ c = '\t' ∨ c = '\n' ∨ c = '\x0c' ∨ c = '\r'

/-- Remove up to two trailing `=`. -/
def stripPad (l : List Char) : List Char :=
  match l.reverse with
  | '=' :: '=' :: r => r.reverse
  | '=' :: r => r.reverse
  | _ => l

def atob (s : String) : Option String :=
  let l0 := s.toList.filter (fun c => !isB64Ws c)
  let l1 := if l0.length % 4 = 0 then stripPad l0 else l0
  if l1.length % 4 = 1 then none
  else
    match l1.mapM b64index with
    | none => none
    | some sextets => some (String.mk ((sextetsToBytes sextets).map Char.ofNat))

/-! ## JSON (`JSON.stringify` on the token shape, `JSON.parse` in general)

Numbers keep their source lexeme: no claim depends on numeric values, only
on which inputs parse.  (Two junk-path approximations, both unreachable from
any theorem below: a numeric literal underflowing to zero in IEEE arithmetic
is not treated as falsy, and a `\uXXXX` escape denoting a lone surrogate
becomes `Char.ofNat`'s default rather than a surrogate code unit.) -/

inductive Json where
  | null
  | bool (b : Bool)
  | num (lexeme : String)
  | str (s : String)
  | arr (elems : List Json)
  | obj (fields : List (String × Json))

def hexDigit (n : Nat) : Char :=
  "0123456789abcdef".toList.getD n '0'

def hexVal (c : Char) : Option Nat :=
  if '0' ≤ c ∧ c ≤ '9' then some (c.toNat - '0'.toNat)
  else if 'a' ≤ c ∧ c ≤ 'f' then some (c.toNat - 'a'.toNat + 10)
  else if 'A' ≤ c ∧ c ≤ 'F' then some (c.toNat - 'A'.toNat + 10)
  else none

/-- `JSON.stringify`'s escaping of one character inside a string literal. -/
def escapeChar (c : Char) : List Char :=
  if c = '"' then ['\\', '"']
  else if c = '\\' then ['\\', '\\']
  else if c = '\x08' then ['\\', 'b']
  else if c = '\x09' then ['\\', 't']
  else if c = '\x0a' then ['\\', 'n']
  else if c = '\x0c' then ['\\', 'f']
  else if c = '\x0d' then ['\\', 'r']
  else if c.toNat < 32 then
    ['\\', 'u', '0', '0', hexDigit (c.toNat / 16), hexDigit (c.toNat % 16)]
  else [c]

def escapeList (l : List Char) : List Char := (l.map escapeChar).flatten

/-- `JSON.stringify` of a string: quoted and escaped. -/
def quoteString (s : String) : List Char :=
  '"' :: escapeList s.toList ++ ['"']

def jsonWsChar (c : Char) : Bool :=
  c = ' ' ∨ c = '\t' ∨ c = '\n' ∨ c = '\r'

def skipWs (l : List Char) : List Char := l.dropWhile jsonWsChar

/-- String-literal body parser (after the opening quote); fuel bounds the
number of produced characters. -/
def parseStringBody : Nat → List Char → Option (List Char × List Char)
  | 0, _ => none
  | fuel + 1, l =>
    match l with
    | [] => none
    | c :: rest =>
    if c = '"' then some ([], rest)
    else if c = '\\' then
      match rest with
      | [] => none
      | e :: rest2 =>
        if e = '"' then (parseStringBody fuel rest2).map (fun p => ('"' :: p.1, p.2))
        else if e = '\\' then (parseStringBody fuel rest2).map (fun p => ('\\' :: p.1, p.2))
        else if e = '/' then (parseStringBody fuel rest2).map (fun p => ('/' :: p.1, p.2))
        else if e = 'b' then (parseStringBody fuel rest2).map (fun p => ('\x08' :: p.1, p.2))
        else if e = 'f' then (parseStringBody fuel rest2).map (fun p => ('\x0c' :: p.1, p.2))
        else if e = 'n' then (parseStringBody fuel rest2).map (fun p => ('\x0a' :: p.1, p.2))
        else if e = 'r' then (parseStringBody fuel rest2).map (fun p => ('\x0d' :: p.1, p.2))
        else if e = 't' then (parseStringBody fuel rest2).map (fun p => ('\x09' :: p.1, p.2))
        else if e = 'u' then
          match rest2 with
          | h1 :: h2 :: h3 :: h4 :: rest3 =>
            match hexVal h1 with
            | none => none
            | some a =>
              match hexVal h2 with
              | none => none
              | some b =>
                match hexVal h3 with
                | none => none
                | some c' =>
                  match hexVal h4 with
                  | none => none
                  | some d =>
                    (parseStringBody fuel rest3).map
                      (fun p => (Char.ofNat (((a * 16 + b) * 16 + c') * 16 + d) :: p.1, p.2))
          | _ => none
        else none
    else if c.toNat < 32 then none
    else (parseStringBody fuel rest).map (fun p => (c :: p.1, p.2))

def spanDigits (l : List Char) : List Char × List Char :=
  (l.takeWhile Char.isDigit, l.dropWhile Char.isDigit)

/-- JSON integer part: `0` or a nonzero digit followed by digits. -/
def parseIntPart : List Char → Option (List Char × List Char)
  | '0' :: rest => some (['0'], rest)
  | c :: rest =>
    if '1' ≤ c ∧ c ≤ '9' then
      let p := spanDigits rest
      some (c :: p.1, p.2)
    else none
  | [] => none

def parseFracPart (l : List Char) : List Char × List Char :=
  match l with
  | '.' :: rest =>
    match rest with
    | c :: _ =>
      if c.isDigit then
        let p := spanDigits rest
        ('.' :: p.1, p.2)
      else ([], l)
    | [] => ([], l)
  | _ => ([], l)

def parseExpPart (l : List Char) : List Char × List Char :=
  match l with
  | e :: rest =>
    if e = 'e' ∨ e = 'E' then
      let sp : List Char × List Char :=
        match rest with
        | s :: r2 => if s = '+' ∨ s = '-' then ([s], r2) else ([], rest)
        | [] => ([], rest)
      match sp.2 with
      | c :: _ =>
        if c.isDigit then
          let p := spanDigits sp.2
          (e :: sp.1 ++ p.1, p.2)
        else ([], l)
      | [] => ([], l)
    else ([], l)
  | [] => ([], l)

/-- JSON number lexeme (sign, integer, fraction, exponent). -/
def parseNumber (l : List Char) : Option (List Char × List Char) :=
  let sp : List Char × List Char :=
    match l with
    | '-' :: r => (['-'], r)
    | _ => ([], l)
  match parseIntPart sp.2 with
  | none => none
  | some (ip, r1) =>
    let fp := parseFracPart r1
    let ep := parseExpPart fp.2
    some (sp.1 ++ ip ++ fp.1 ++ ep.1, ep.2)

def expectLit (lit : List Char) (l : List Char) : Option (List Char) :=
  if lit.isPrefixOf l then some (l.drop lit.length) else none

mutual

/-- JSON value parser; the input position is already whitespace-skipped. -/
def parseValue : Nat → List Char → Option (Json × List Char)
  | 0, _ => none
  | fuel + 1, l =>
    match l with
    | [] => none
    | c :: rest =>
      if c = '"' then
        (parseStringBody (rest.length + 1) rest).map (fun p => (Json.str (String.mk p.1), p.2))
      else if c = '\x7b' then parseFields fuel true (skipWs rest)
      else if c = '[' then parseElems fuel true (skipWs rest)
      else if c = 't' then (expectLit ['r', 'u', 'e'] rest).map (fun r => (Json.bool true, r))
      else if c = 'f' then (expectLit ['a', 'l', 's', 'e'] rest).map (fun r => (Json.bool false, r))
      else if c = 'n' then (expectLit ['u', 'l', 'l'] rest).map (fun r => (Json.null, r))
      else if c = '-' ∨ c.isDigit then
        (parseNumber l).map (fun p => (Json.num (String.mk p.1), p.2))
      else none

/-- Object members after `{` (or after a comma, with `allowEmpty := false`). -/
def parseFields : Nat → Bool → List Char → Option (Json × List Char)
  | 0, _, _ => none
  | fuel + 1, allowEmpty, l =>
    match l with
    | '\x7d' :: rest => if allowEmpty then some (Json.obj [], rest) else none
    | '"' :: rest =>
      match parseStringBody (rest.length + 1) rest with
      | none => none
      | some (key, r1) =>
        match skipWs r1 with
        | ':' :: r2 =>
          match parseValue fuel (skipWs r2) with
          | none => none
          | some (v, r3) =>
            match skipWs r3 with
            | '\x7d' :: r4 => some (Json.obj [(String.mk key, v)], r4)
            | ',' :: r4 =>
              match parseFields fuel false (skipWs r4) with
              | some (Json.obj fields, r5) => some (Json.obj ((String.mk key, v) :: fields), r5)
              | _ => none
            | _ => none
        | _ => none
    | _ => none

/-- Array elements after `[` (or after a comma, with `allowEmpty := false`). -/
def parseElems : Nat → Bool → List Char → Option (Json × List Char)
  | 0, _, _ => none
  | fuel + 1, allowEmpty, l =>
    match l with
    | ']' :: rest => if allowEmpty then some (Json.arr [], rest) else none
    | _ =>
      match parseValue fuel l with
      | none => none
      | some (v, r1) =>
        match skipWs r1 with
        | ']' :: r2 => some (Json.arr [v], r2)
        | ',' :: r2 =>
          match parseElems fuel false (skipWs r2) with
          | some (Json.arr elems, r3) => some (Json.arr (v :: elems), r3)
          | _ => none
        | _ => none

end

/-- `JSON.parse`: parse one value, allow surrounding whitespace, reject
trailing input. -/
def parseJson (s : String) : Option Json :=
  match parseValue (s.toList.length + 1) (skipWs s.toList) with
  | some (j, rest) => if skipWs rest = [] then some j else none
  | none => none

/-! ## Token codec (`utils/alexa-response.ts`) -/

/-- `JSON.stringify` of a `PlaybackToken` object literal (insertion order:
`trackId` then `context`). -/
def stringifyToken (t : PlaybackToken) : String :=
  String.mk ('\x7b' :: "\"trackId\":".toList ++ quoteString t.trackId ++
    ",\"context\":".toList ++ quoteString t.context ++ ['\x7d'])

/-- `encodeToken`: `btoa(JSON.stringify(token))`; `none` models the
`InvalidCharacterError` `btoa` raises on code units above 255. -/
def encodeToken (t : PlaybackToken) : Option String :=
  btoa (stringifyToken t)

/-- `decodeToken`: `JSON.parse(atob(raw))` with the catch-all returning null.
The TypeScript signature asserts `PlaybackToken`, but the cast is unchecked:
the function really returns whatever JSON value parsed, so the model returns
`Json`. -/
def decodeToken (raw : String) : Option Json :=
  match atob raw with
  | none => none
  | some s => parseJson s

/-- The JSON value `JSON.parse` recovers from a well-formed encoded token. -/
def tokenJson (t : PlaybackToken) : Json :=
  Json.obj [("trackId", Json.str t.trackId), ("context", Json.str t.context)]

/-- Property read `value[key]` when a string is expected: JS object semantics
(later duplicate keys win), `none` for a missing field, a non-string value, or
a non-object receiver (property access then yields `undefined`). -/
def jsonStrField (j : Json) (key : String) : Option String :=
  match j with
  | Json.obj fields =>
    match (fields.filter (fun kv => kv.1 = key)).getLast? with
    | some (_, Json.str s) => some s
    | _ => none
  | _ => none

/-- A decoded JSON value that actually has the `PlaybackToken` shape. -/
def jsonAsToken (j : Json) : Option PlaybackToken :=
  match jsonStrField j "trackId", jsonStrField j "context" with
  | some tid, some ctx => some ⟨tid, ctx⟩
  | _, _ => none

/-- Decode plus shape check: the valid-token reading of `decodeToken`. -/
def decodeTokenTyped (raw : String) : Option PlaybackToken :=
  (decodeToken raw).bind jsonAsToken

inductive PlayBehavior where
  | replaceAll
  | enqueue
  | replaceEnqueued
deriving DecidableEq

structure UrlBuilder where
  mp3 : String → String
  art : String → String

/-- The response shapes `alexa-handler.ts` produces: a Play directive (with
its stream token kept as the structured `PlaybackToken` that gets encoded into
`stream.token`), a Stop directive, plain speech, or the empty response body. -/
inductive AlexaResponse where
  | play (track : Track) (mp3Url artUrl : String) (token : PlaybackToken)
      (behavior : PlayBehavior) (offsetMs : Int) (expectedPreviousToken : Option String)
      (outputSpeech : Option String)
  | stop
  | speech (text : String) (shouldEndSession : Bool)
  | empty
deriving DecidableEq

/-- `buildPlayResponse`: its first statement `const encodedToken = encodeToken(token)`
raises `btoa`'s `InvalidCharacterError` whenever the stringified token holds a
code unit above 255 (the `Except.error` case).  Otherwise the directive is
built: `expectedPreviousToken` lands in the stream only for a truthy value
under ENQUEUE; `outputSpeech` only for a truthy speech text. -/
def buildPlayResponse (track : Track) (mp3Url artUrl : String) (token : PlaybackToken)
    (behavior : PlayBehavior) (offsetMs : Int) (expectedPreviousToken : Option String)
    (speechText : Option String) : Except Unit AlexaResponse :=
  match encodeToken token with
  | none => Except.error ()
  | some _ =>
    Except.ok (AlexaResponse.play track mp3Url artUrl token behavior offsetMs
      (if behavior = PlayBehavior.enqueue then strTruthy expectedPreviousToken else none)
      (strTruthy speechText))

def buildStopResponse : AlexaResponse := AlexaResponse.stop

def buildSpeechResponse (text : String) (shouldEndSession : Bool) : AlexaResponse :=
  AlexaResponse.speech text shouldEndSession

def toLowerAscii (c : Char) : Char :=
  if 'A' ≤ c ∧ c ≤ 'Z' then Char.ofNat (c.toNat + 32) else c

def likeEqChar (p t : Char) : Bool := toLowerAscii p = toLowerAscii t

def likeMatchFuel : Nat → List Char → List Char → Bool
  | 0, _, _ => false
  | fuel + 1, pattern, text =>
    match pattern, text with
    | [], [] => true
    | [], _ :: _ => false
    | '%' :: ps, txt =>
      likeMatchFuel fuel ps txt ||
        (match txt with
         | [] => false
         | _ :: ts => likeMatchFuel fuel ('%' :: ps) ts)
    | '_' :: ps, _ :: ts => likeMatchFuel fuel ps ts
    | '_' :: _, [] => false
    | p :: ps, t :: ts => likeEqChar p t && likeMatchFuel fuel ps ts
    | _ :: _, [] => false

/-- SQL LIKE matching; every step shortens `pattern.length + text.length`,
so the fuel below is always enough. -/
def likeMatch (pattern text : List Char) : Bool :=
  likeMatchFuel (pattern.length + text.length + 1) pattern text

/-- `x LIKE '%needle%'`. -/
def likeContains (needle hay : List Char) : Bool :=
  likeMatch ('%' :: needle ++ ['%']) hay

/-- SQL `REPLACE(x, ' ', '')`. -/
def stripSqlSpaces (s : String) : List Char := s.toList.filter (fun c => c ≠ ' ')

/-- A JavaScript `\s` character (`query.replace(/\s+/g, "")`). -/
def isJsWs (c : Char) : Bool :=
  c = ' ' ∨ c = '\t' ∨ c = '\n' ∨ c = '\x0b' ∨ c = '\x0c' ∨ c = '\r' ∨
    c = '\xa0' ∨ c = '\u1680' ∨ ('\u2000' ≤ c ∧ c ≤ '\u200a') ∨ c = '\u2028' ∨
    c = '\u2029' ∨ c = '\u202f' ∨ c = '\u205f' ∨ c = '\u3000' ∨ c = '\ufeff'

def normalizeQuery (s : String) : List Char := s.toList.filter (fun c => !isJsWs c)

/-- `searchTracksByTitle`: space-normalised substring match on title. -/
def Db.searchTracksByTitle (db : Db) (query : String) : List Track :=
  let normalized := normalizeQuery query
  db.tracks.filter (fun t => likeContains normalized (stripSqlSpaces t.title))

/-- `searchTracksByArtist`: join to the artist row, match name or keywords. -/
def Db.searchTracksByArtist (db : Db) (query : String) : List Track :=
  let normalized := normalizeQuery query
  db.tracks.filter (fun t =>
    match db.artists.find? (fun a => a.id = t.artistId) with
    | some a =>
      likeContains normalized (stripSqlSpaces a.name) ||
        likeContains normalized (stripSqlSpaces a.keywords)
    | none => false)

/-- `searchPlaylistsByName`: substring match on the playlist name. -/
def Db.searchPlaylistsByName (db : Db) (query : String) : List Playlist :=
  db.playlists.filter (fun p => likeContains query.toList p.name.toList)

/-! ## Protocol B intent handlers (`alexa-handler.ts`) -/

def handlePlayAllIntent (db : Db) (U : UrlBuilder) : Except Unit AlexaResponse :=
  match db.getTracks with
  | [] => Except.ok (buildSpeechResponse "再生できる曲がありません。" false)
  | first :: _ =>
    buildPlayResponse first (U.mp3 first.id) (U.art first.id)
      ⟨first.id, "all"⟩ PlayBehavior.replaceAll 0 none (some (first.title ++ " を再生します。"))

def handlePlaySongIntent (db : Db) (U : UrlBuilder)
    (songNameOpt : Option String) : Except Unit AlexaResponse :=
  match strTruthy songNameOpt with
  | none => handlePlayAllIntent db U
  | some songName =>
    match db.searchTracksByTitle songName with
    | [] => Except.ok (buildSpeechResponse (songName ++ " が見つかりませんでした。") false)
    | first :: _ =>
      buildPlayResponse first (U.mp3 first.id) (U.art first.id)
        ⟨first.id, "single"⟩ PlayBehavior.replaceAll 0 none
        (some (first.title ++ " を再生します。"))

def handlePlayArtistIntent (db : Db) (U : UrlBuilder)
    (artistNameOpt : Option String) : Except Unit AlexaResponse :=
  match strTruthy artistNameOpt with
  | none => handlePlayAllIntent db U
  | some artistName =>
    match db.searchTracksByArtist artistName with
    | [] => Except.ok (buildSpeechResponse (artistName ++ " の曲が見つかりませんでした。") false)
    | first :: _ =>
      buildPlayResponse first (U.mp3 first.id) (U.art first.id)
        ⟨first.id, "artist::" ++ first.artistId⟩ PlayBehavior.replaceAll 0 none
        (some (first.artist ++ " の曲を再生します。"))

def handlePlayPlaylistIntent (db : Db) (U : UrlBuilder)
    (playlistNameOpt : Option String) : Except Unit AlexaResponse :=
  match strTruthy playlistNameOpt with
  | none => Except.ok (buildSpeechResponse "プレイリスト名を言ってください。" false)
  | some playlistName =>
    match db.searchPlaylistsByName playlistName with
    | [] =>
      Except.ok
        (buildSpeechResponse ("「" ++ playlistName ++ "」というプレイリストが見つかりませんでした。") false)
    | pl :: _ =>
      if pl.trackIds.length = 0 then
        Except.ok
          (buildSpeechResponse ("「" ++ playlistName ++ "」というプレイリストが見つかりませんでした。") false)
      else
        match db.getPlaylistTracks pl.id with
        | [] => Except.ok (buildSpeechResponse "プレイリストに曲が含まれていません。" false)
        | first :: _ =>
          buildPlayResponse first (U.mp3 first.id) (U.art first.id)
            ⟨first.id, "playlist::" ++ pl.id⟩ PlayBehavior.replaceAll 0 none
            (some ("プレイリスト " ++ pl.name ++ " を再生します。"))

/-! ## AudioPlayer events (`alexa-handler.ts`, `handleAudioPlayerEvent`) -/

/-- First occurrence split: `some (before, after)` around the leftmost
occurrence of `sep`, `none` when `sep` does not occur. -/
def splitFirst (sep : List Char) : List Char → Option (List Char × List Char)
  | [] => none
  | c :: cs =>
    if sep.isPrefixOf (c :: cs) then some ([], (c :: cs).drop sep.length)
    else
      match splitFirst sep cs with
      | some (pre, post) => some (c :: pre, post)
      | none => none

/-- `String.prototype.split` on a non-empty separator, fuelled (the fuel
`l.length` always suffices since each split consumes the separator). -/
def jsSplitFuel (sep : List Char) : Nat → List Char → List (List Char)
  | 0, l => [l]
  | fuel + 1, l =>
    match splitFirst sep l with
    | none => [l]
    | some (pre, post) => pre :: jsSplitFuel sep fuel post

def jsSplitList (sep l : List Char) : List (List Char) := jsSplitFuel sep l.length l

/-- `String.prototype.includes`. -/
def jsIncludes (sep l : List Char) : Bool := (splitFirst sep l).isSome

/-- `Array.prototype.join`. -/
def joinWith (sep : List Char) : List (List Char) → List Char
  | [] => []
  | [x] => x
  | x :: xs => x ++ sep ++ joinWith sep xs

def dcolon : List Char := [':', ':']

/-- The contentId parsing block of `handleInitiate`: current `::`-separated
format first, then the `content-all` sentinel, then the legacy single-hyphen
split (`parts[1]` is the type, the rest rejoined is the entity id). -/
def parseContentId (contentId : String) : String × String :=
  let l := contentId.toList
  if jsIncludes dcolon l then
    let segments := jsSplitList dcolon l
    (String.mk (segments.getD 1 []), String.mk (joinWith dcolon (segments.drop 2)))
  else if contentId = "content-all" then ("all", "")
  else
    let parts := jsSplitList ['-'] l
    (String.mk (parts.getD 1 []), String.mk (joinWith ['-'] (parts.drop 2)))

inductive InitiateResponse where
  | contentNotFound
  | initiate (firstTrack : Track) (mp3Url : String) (hasNext : Bool)
deriving DecidableEq

/-- The type-dispatched resolution block of `handleInitiate`: the selected
first track and the `totalCount` used for `hasNext`.  `none` is every path
that ends in `buildContentNotFoundResponse`. -/
def initiateSelect (db : Db) (ty entityId : String) : Option (Track × Nat) :=
  if ty = "all" then
    let result := resolveEntity db "" "ALL"
    if result.found then
      match result.tracks with
      | some (t :: ts) => some (t, result.totalCount.getD (t :: ts).length)
      | _ => none
    else none
  else if ty = "track" then
    let result := resolveEntity db entityId "TRACK"
    if result.found then
      match result.track with
      | some t => some (t, 1)
      | none => none
    else none
  else if ty = "artist" then
    let result := resolveEntity db entityId "ARTIST"
    if result.found then
      match result.tracks with
      | some (t :: ts) => some (t, result.totalCount.getD (t :: ts).length)
      | _ => none
    else none
  else if ty = "playlist" then
    let result := resolveEntity db entityId "PLAYLIST"
    if result.found then
      match result.tracks with
      | some (t :: ts) => some (t, result.totalCount.getD (t :: ts).length)
      | _ => none
    else none
  else none

/-- `handleInitiate` (queue id and stream URL construction aside: `mkUrl`
stands for `buildMp3Url`). -/
def handleInitiate (db : Db) (mkUrl : String → String) (contentId : String) : InitiateResponse :=
  let p := parseContentId contentId
  match initiateSelect db p.1 p.2 with
  | none => InitiateResponse.contentNotFound
  | some (firstTrack, totalCount) =>
    InitiateResponse.initiate firstTrack (mkUrl firstTrack.id) (decide (1 < totalCount))

/-- The ordered sequence a parsed ContentReference resolves to (the Context
Resolver reading of the `initiate.ts` branches over the storage accessors). -/
def initiateSequence (db : Db) (ty entityId : String) : List Track :=
  if ty = "all" then db.getTracks
  else if ty = "track" then (db.getTrack entityId).toList
  else if ty = "artist" then db.getTracksByArtistId entityId
  else if ty = "playlist" then
    match db.getPlaylist entityId with
    | some _ => db.getPlaylistTracks entityId
    | none => []
  else []

/-! ## Support lemmas -/

theorem Db.getTrack_id (db : Db) (i : String) (t : Track)
    (h : db.getTrack i = some t) : t.id = i := by
  have hp := List.find?_some h
  exact of_decide_eq_true hp

/-! ## Sample data for witnesses -/

def trackA : Track := ⟨"ta", "Alpha", "Artist One", "ar1", "", 100, "2024-01-03"⟩
def trackB : Track := ⟨"tb", "Beta", "Artist One", "ar1", "", 120, "2024-01-02"⟩
def trackC : Track := ⟨"tc", "Gamma", "Artist Two", "ar2", "", 90, "2024-01-01"⟩

def sampleDb : Db :=
  ⟨[trackA, trackB, trackC],
   [⟨"ar1", "Artist One", "one"⟩, ⟨"ar2", "Artist Two", ""⟩],
   [⟨"pl1", "Favorites", ["tb", "tc"], "2024-01-01", "2024-01-01"⟩]⟩

/-! ## Claims -/

/-- C9: for every token whose context is `single`, the adjacency computation
yields no result in either direction, regardless of the current trackId and
of storage contents. -/
theorem c9_single_context_closed (db : Db) (trackId : String) (dir : Direction) :
    findAdjacentTrack db ⟨trackId, "single"⟩ dir = none := by
  simp [findAdjacentTrack, findAdjacentTrackCore]

/-- C3: on a resolved sequence of length `N`, a successful next for the track
at index `i` reports `hasFurtherNext = (i+2 < N)`, and a successful previous
reports `hasNext = (i-1 < N-1)`. -/
theorem c3_lookahead_flags (db : Db) (currentTrackId : String)
    (playlistIdOpt : Option String) (l : List String)
    (hl : resolvedList db playlistIdOpt = some l) :
    (∀ t flag, handleGetNextTrack db currentTrackId playlistIdOpt = .next t flag →
      flag = decide (jsIndexOf l currentTrackId + 2 < (l.length : Int))) ∧
    (∀ t flag, handleGetPreviousTrack db currentTrackId playlistIdOpt = .prev t flag →
      flag = decide (jsIndexOf l currentTrackId - 1 < (l.length : Int) - 1)) := by
  constructor
  · intro t flag h
    unfold handleGetNextTrack at h
    rw [hl] at h
    dsimp only at h
    split at h
    · exact absurd h (by simp)
    · split at h
      · exact absurd h (by simp)
      · split at h
        · exact absurd h (by simp)
        · split at h
          · exact absurd h (by simp)
          · injection h with _ hflag
            subst hflag
            exact decide_eq_decide.mpr (by omega)
  · intro t flag h
    unfold handleGetPreviousTrack at h
    rw [hl] at h
    dsimp only at h
    split at h
    · exact absurd h (by simp)
    · split at h
      · exact absurd h (by simp)
      · split at h
        · exact absurd h (by simp)
        · split at h
          · exact absurd h (by simp)
          · injection h with _ hflag
            subst hflag
            rfl

/-- Witness for C3 at a concrete three-track store. -/
theorem c3_lookahead_flags_witness :
    (true : Bool) =
      decide (jsIndexOf ["ta", "tb", "tc"] "ta" + 2 < ((["ta", "tb", "tc"] : List String).length : Int)) :=
  (c3_lookahead_flags sampleDb "ta" none ["ta", "tb", "tc"] (by decide)).1 trackB true (by decide)

/-- C2 (amended): on a context resolving to `[a, b, c]` with the three ids
distinct, **non-empty**, and all present in storage, both adjacency
implementations step forward and backward through the sequence, closed at the
ends, and an id absent from the sequence yields no result in both
directions.  (Non-emptiness is needed: a JS falsiness guard treats the empty
string id as a missing element, see the counterexample.) -/
theorem c2_adjacency_sequence (db : Db) (ctx : String) (plOpt : Option String)
    (a b c x : String) (ta tb tc : Track)
    (hab : a ≠ b) (hac : a ≠ c) (hbc : b ≠ c)
    (ha : a ≠ "") (hb : b ≠ "") (hc : c ≠ "")
    (hctx : ctx ≠ "single")
    (hseq : contextTrackList db ctx = some [a, b, c])
    (hlist : resolvedList db plOpt = some [a, b, c])
    (hta : db.getTrack a = some ta) (htb : db.getTrack b = some tb)
    (htc : db.getTrack c = some tc)
    (hx : x ∉ ([a, b, c] : List String)) :
    findAdjacentTrack db ⟨a, ctx⟩ Direction.next = some tb ∧
    findAdjacentTrack db ⟨b, ctx⟩ Direction.next = some tc ∧
    findAdjacentTrack db ⟨c, ctx⟩ Direction.next = none ∧
    findAdjacentTrack db ⟨c, ctx⟩ Direction.previous = some tb ∧
    findAdjacentTrack db ⟨b, ctx⟩ Direction.previous = some ta ∧
    findAdjacentTrack db ⟨a, ctx⟩ Direction.previous = none ∧
    findAdjacentTrack db ⟨x, ctx⟩ Direction.next = none ∧
    findAdjacentTrack db ⟨x, ctx⟩ Direction.previous = none ∧
    handleGetNextTrack db a plOpt = .next tb true ∧
    handleGetNextTrack db b plOpt = .next tc false ∧
    handleGetNextTrack db c plOpt = .noNext ∧
    handleGetPreviousTrack db c plOpt = .prev tb true ∧
    handleGetPreviousTrack db b plOpt = .prev ta true ∧
    handleGetPreviousTrack db a plOpt = .noPrevious ∧
    handleGetNextTrack db x plOpt = .noNext ∧
    handleGetPreviousTrack db x plOpt = .noPrevious := by
  simp only [List.mem_cons, List.not_mem_nil, or_false, not_or] at hx
  obtain ⟨hxa, hxb, hxc⟩ := hx
  have hax := Ne.symm hxa
  have hbx := Ne.symm hxb
  have hcx := Ne.symm hxc
  have hba := Ne.symm hab
  have hca := Ne.symm hac
  have hcb := Ne.symm hbc
  refine ⟨?_, ?_, ?_, ?_, ?_, ?_, ?_, ?_, ?_, ?_, ?_, ?_, ?_, ?_, ?_, ?_⟩ <;>
    simp [findAdjacentTrack, findAdjacentTrackCore, handleGetNextTrack,
      handleGetPreviousTrack, hseq, hlist, hctx, jsIndexOf, jsIndexOfAux,
      listGetInt, hab, hac, hbc, hba, hca, hcb, ha, hb, hc,
      hax, hbx, hcx, hta, htb, htc]

def trackEmptyIdLeft : Track := ⟨"x", "Left", "A", "a1", "", 1, "2024-01-03"⟩
def trackEmptyIdMid : Track := ⟨"", "Mid", "A", "a1", "", 1, "2024-01-02"⟩
def trackEmptyIdRight : Track := ⟨"y", "Right", "A", "a1", "", 1, "2024-01-01"⟩

/-- A store whose all-tracks sequence is `["x", "", "y"]`: three distinct ids,
all with track rows present. -/
def dbEmptyId : Db := ⟨[trackEmptyIdLeft, trackEmptyIdMid, trackEmptyIdRight], [], []⟩

/-- Counterexample to C2 as stated: the sequence is `["x", "", "y"]` (ids
pairwise distinct, every id present in storage), yet `next("x")` returns no
result instead of the middle track — the `if (!targetId)` guard treats the
empty-string id as missing. -/
theorem c2_counterexample :
    contextTrackList dbEmptyId "all" = some ["x", "", "y"] ∧
    ("x" ≠ ("" : String) ∧ "x" ≠ ("y" : String) ∧ ("" : String) ≠ "y") ∧
    dbEmptyId.getTrack "x" = some trackEmptyIdLeft ∧
    dbEmptyId.getTrack "" = some trackEmptyIdMid ∧
    dbEmptyId.getTrack "y" = some trackEmptyIdRight ∧
    findAdjacentTrack dbEmptyId ⟨"x", "all"⟩ Direction.next = none ∧
    handleGetNextTrack dbEmptyId "x" none = NextTrackResponse.noNext := by
  decide

/-- Witness for C2 (amended) on the three-track sample store, context `all`. -/
theorem c2_adjacency_sequence_witness :
    findAdjacentTrack sampleDb ⟨"ta", "all"⟩ Direction.next = some trackB ∧
    handleGetPreviousTrack sampleDb "tc" none = PrevTrackResponse.prev trackB true :=
  have h := c2_adjacency_sequence sampleDb "all" none "ta" "tb" "tc" "zz"
    trackA trackB trackC (by decide) (by decide) (by decide) (by decide) (by decide)
    (by decide) (by decide) (by decide) (by decide) (by decide) (by decide) (by decide)
    (by decide)
  ⟨h.1, h.2.2.2.2.2.2.2.2.2.2.2.1⟩

/-- C10: the Protocol A queue-lifecycle next/previous operations compute
adjacency over the full all-tracks sequence only — the Lambda handlers call
the resolve endpoints with just the current track id and no playlist id, so
the playlist (and artist) tables never influence the outcome, and a
successful step returns exactly the neighbour in the newest-first all-tracks
id list. -/
theorem c10_lifecycle_ignores_context (tracks : List Track)
    (artists1 artists2 : List Artist) (pls1 pls2 : List Playlist)
    (mkUrl : String → String) (idOpt : Option String) :
    (handleGetNextItem ⟨tracks, artists1, pls1⟩ mkUrl idOpt =
       handleGetNextItem ⟨tracks, artists2, pls2⟩ mkUrl idOpt ∧
     handleGetPreviousItem ⟨tracks, artists1, pls1⟩ mkUrl idOpt =
       handleGetPreviousItem ⟨tracks, artists2, pls2⟩ mkUrl idOpt) ∧
    (∀ db : Db, resolvedList db none = some db.getTrackIds) ∧
    (∀ (db : Db) (i : String) (t : Track) (flag : Bool),
       handleGetNextTrack db i none = .next t flag →
       listGetInt db.getTrackIds (jsIndexOf db.getTrackIds i + 1) = some t.id) ∧
    (∀ (db : Db) (i : String) (t : Track) (flag : Bool),
       handleGetPreviousTrack db i none = .prev t flag →
       listGetInt db.getTrackIds (jsIndexOf db.getTrackIds i - 1) = some t.id) := by
  refine ⟨⟨?_, ?_⟩, fun _ => rfl, ?_, ?_⟩
  · cases idOpt with
    | none => rfl
    | some s =>
      by_cases hs : s = ""
      · simp only [handleGetNextItem, strTruthy, hs, ite_true]
      · simp only [handleGetNextItem, strTruthy, hs, ite_false]
        rw [show handleGetNextTrack ⟨tracks, artists1, pls1⟩ s none =
              handleGetNextTrack ⟨tracks, artists2, pls2⟩ s none from rfl]
  · cases idOpt with
    | none => rfl
    | some s =>
      by_cases hs : s = ""
      · simp only [handleGetPreviousItem, strTruthy, hs, ite_true]
      · simp only [handleGetPreviousItem, strTruthy, hs, ite_false]
        rw [show handleGetPreviousTrack ⟨tracks, artists1, pls1⟩ s none =
              handleGetPreviousTrack ⟨tracks, artists2, pls2⟩ s none from rfl]
  · intro db i t flag h
    unfold handleGetNextTrack at h
    dsimp only [resolvedList, strTruthy] at h
    split at h
    · exact absurd h (by simp)
    · split at h
      · exact absurd h (by simp)
      · rename_i nid hget
        split at h
        · exact absurd h (by simp)
        · split at h
          · exact absurd h (by simp)
          · rename_i tr htr
            injection h with h1 _
            subst h1
            rw [hget, Db.getTrack_id db nid tr htr]
  · intro db i t flag h
    unfold handleGetPreviousTrack at h
    dsimp only [resolvedList, strTruthy] at h
    split at h
    · exact absurd h (by simp)
    · split at h
      · exact absurd h (by simp)
      · rename_i nid hget
        split at h
        · exact absurd h (by simp)
        · split at h
          · exact absurd h (by simp)
          · rename_i tr htr
            injection h with h1 _
            subst h1
            rw [hget, Db.getTrack_id db nid tr htr]

/-- Witness for C10: in a store with a playlist ordering tracks `[tc, ta]`,
the next item after `ta` still follows the all-tracks order (`tb`). -/
theorem c10_lifecycle_ignores_context_witness :
    listGetInt sampleDb.getTrackIds (jsIndexOf sampleDb.getTrackIds "ta" + 1) = some trackB.id :=
  (c10_lifecycle_ignores_context sampleDb.tracks sampleDb.artists sampleDb.artists
      sampleDb.playlists [] (fun s => s) (some "ta")).2.2.1
    sampleDb "ta" trackB true (by decide)

/-- C5: an Initiate request answers with the first element of the sequence
its ContentReference resolves to and `hasNext = (sequence length > 1)`; an
empty or unresolvable reference gets the content-not-found response. -/
theorem c5_initiate_first_element (db : Db) (mkUrl : String → String) (contentId : String) :
    handleInitiate db mkUrl contentId =
      match initiateSequence db (parseContentId contentId).1 (parseContentId contentId).2 with
      | [] => InitiateResponse.contentNotFound
      | t :: rest => InitiateResponse.initiate t (mkUrl t.id) (decide (1 < (t :: rest).length)) := by
  rcases hpe : parseContentId contentId with ⟨ty, eid⟩
  unfold handleInitiate
  rw [hpe]
  dsimp only
  unfold initiateSelect initiateSequence resolveEntity handleResolveEntity
  by_cases h1 : ty = "all"
  · subst h1
    cases htr : db.tracks with
    | nil => simp [Db.getTracks, htr]
    | cons t ts => simp [Db.getTracks, htr]
  · by_cases h2 : ty = "track"
    · subst h2
      cases hgt : db.getTrack eid with
      | none => simp [hgt]
      | some t => simp [hgt]
    · by_cases h3 : ty = "artist"
      · subst h3
        cases hga : db.getTracksByArtistId eid with
        | nil => simp [hga]
        | cons t ts => simp [hga]
      · by_cases h4 : ty = "playlist"
        · subst h4
          cases hgp : db.getPlaylist eid with
          | none => simp [hgp]
          | some pl =>
            cases hpt : db.getPlaylistTracks eid with
            | nil => simp [hgp, hpt]
            | cons t ts => simp [hgp, hpt]
        · simp [h1, h2, h3, h4]

/-- The GetItem request's current track id fails to resolve: no truthy id in
the payload, or no track row for it. -/
def currentUnresolvable (db : Db) (idOpt : Option String) : Prop :=
  match strTruthy idOpt with
  | none => True
  | some i => db.getTrack i = none

/-- C6: GetItem answers the terminal no-item queue-finished response exactly
when the current track id is unresolvable; a resolvable id gets back the
same track (same id) with a freshly built stream URL and the "more
available" flag taken from the adjacency query — an absent next track still
produces an item response, not the terminal one. -/
theorem c6_get_item_terminal_iff_unresolvable (db : Db) (mkUrl : String → String)
    (idOpt : Option String) :
    (handleGetItem db mkUrl idOpt = ItemResponse.queueFinished ↔ currentUnresolvable db idOpt) ∧
    (∀ i t, strTruthy idOpt = some i → db.getTrack i = some t →
      t.id = i ∧
      handleGetItem db mkUrl idOpt =
        ItemResponse.item t (mkUrl t.id) (nextHasNext (handleGetNextTrack db t.id none))
          (!nextHasNext (handleGetNextTrack db t.id none))) := by
  constructor
  · unfold handleGetItem currentUnresolvable
    cases hs : strTruthy idOpt with
    | none => simp
    | some i =>
      unfold resolveEntity handleResolveEntity
      cases hgt : db.getTrack i with
      | none => simp [hgt]
      | some t => simp [hgt]
  · intro i t hs hgt
    refine ⟨Db.getTrack_id db i t hgt, ?_⟩
    unfold handleGetItem resolveEntity handleResolveEntity
    rw [hs]
    simp [hgt]

/-- Witness for C6: resolving `ta` in the sample store returns the same track
with the more-available flag true, not a terminal response. -/
theorem c6_get_item_terminal_iff_unresolvable_witness :
    trackA.id = "ta" ∧
    handleGetItem sampleDb (fun s => s) (some "ta") =
      ItemResponse.item trackA "ta"
        (nextHasNext (handleGetNextTrack sampleDb "ta" none))
        (!nextHasNext (handleGetNextTrack sampleDb "ta" none)) :=
  (c6_get_item_terminal_iff_unresolvable sampleDb (fun s => s) (some "ta")).2
    "ta" trackA (by decide) (by decide)

theorem string_eq_empty_of_length (b : String) (h : b.length = 0) : b = "" := by
  cases b with
  | mk data =>
    cases data with
    | nil => rfl
    | cons c cs => simp [String.length] at h

theorem append_ne_empty_right (a b : String) (hb : b ≠ "") : a ++ b ≠ "" := by
  intro h
  apply hb
  have hl := congrArg String.length h
  rw [String.length_append] at hl
  exact string_eq_empty_of_length b (by simp at hl; omega)

/-! ## Split/join lemmas for the ContentReference codec -/

theorem splitFirst_sound (sep : List Char) :
    ∀ l pre post, splitFirst sep l = some (pre, post) → l = pre ++ sep ++ post := by
  intro l
  induction l with
  | nil => intro pre post h; simp [splitFirst] at h
  | cons c cs ih =>
    intro pre post h
    unfold splitFirst at h
    split at h
    · rename_i hpre
      obtain ⟨t, ht⟩ := List.isPrefixOf_iff_prefix.mp hpre
      injection h with h1
      injection h1 with hpre' hpost'
      subst hpre'
      rw [← ht, List.drop_left] at hpost'
      subst hpost'
      simp [← ht]
    · rename_i hnpre
      cases hrec : splitFirst sep cs with
      | none => rw [hrec] at h; exact absurd h (by simp)
      | some pp =>
        rw [hrec] at h
        injection h with h1
        injection h1 with hpre' hpost'
        subst hpre'
        subst hpost'
        have := ih pp.1 pp.2 (by rw [hrec])
        simp [this]

/-- A match at the head: the separator itself is a prefix. -/
theorem splitFirst_self (a : Char) (s' rest : List Char) :
    splitFirst (a :: s') ((a :: s') ++ rest) = some ([], rest) := by
  show splitFirst (a :: s') (a :: (s' ++ rest)) = some ([], rest)
  unfold splitFirst
  rw [if_pos (by simpa using List.isPrefixOf_iff_prefix.mpr ⟨rest, rfl⟩)]
  simp only [List.length_cons, List.drop_succ_cons, Option.some.injEq, Prod.mk.injEq, true_and]
  exact List.drop_left s' rest

/-- Splitting skips a prefix none of whose characters can start the
separator. -/
theorem splitFirst_prepend_clean (a : Char) (s' : List Char) :
    ∀ pre rest, (∀ c ∈ pre, c ≠ a) →
      splitFirst (a :: s') (pre ++ (a :: s') ++ rest) = some (pre, rest) := by
  intro pre
  induction pre with
  | nil => intro rest _; simpa using splitFirst_self a s' rest
  | cons c pre' ih =>
    intro rest hclean
    have hca : c ≠ a := hclean c (by simp)
    show splitFirst (a :: s') (c :: (pre' ++ (a :: s') ++ rest)) = some (c :: pre', rest)
    unfold splitFirst
    rw [if_neg]
    · rw [ih rest (fun d hd => hclean d (by simp [hd]))]
    · intro hpre
      have : a = c := by
        have := List.isPrefixOf_iff_prefix.mp hpre
        obtain ⟨t, ht⟩ := this
        exact (List.cons_eq_cons.mp (by simpa using ht)).1
      exact hca this.symm

/-- No occurrence when no character of the list can start the separator. -/
theorem splitFirst_none_of_clean (a : Char) (s' : List Char) :
    ∀ l, (∀ c ∈ l, c ≠ a) → splitFirst (a :: s') l = none := by
  intro l
  induction l with
  | nil => intro; rfl
  | cons c cs ih =>
    intro hclean
    unfold splitFirst
    rw [if_neg]
    · rw [ih (fun d hd => hclean d (by simp [hd]))]
    · intro hpre
      obtain ⟨t, ht⟩ := List.isPrefixOf_iff_prefix.mp hpre
      exact hclean c (by simp) (List.cons_eq_cons.mp (by simpa using ht)).1.symm

/-- Non-occurrence of a two-character separator is preserved by append when
the straddle position does not match. -/
theorem splitFirst_append_none (a b : Char) :
    ∀ xs ys, splitFirst [a, b] xs = none → splitFirst [a, b] ys = none →
      ¬(xs.getLast? = some a ∧ ys.head? = some b) →
      splitFirst [a, b] (xs ++ ys) = none := by
  intro xs
  induction xs with
  | nil => intro ys _ hys _; simpa using hys
  | cons c xs' ih =>
    intro ys hxs hys hstr
    unfold splitFirst at hxs
    split at hxs
    · exact absurd hxs (by simp)
    · rename_i hnpre
      have hxs' : splitFirst [a, b] xs' = none := by
        cases hrec : splitFirst [a, b] xs' with
        | none => rfl
        | some pp => rw [hrec] at hxs; exact absurd hxs (by simp)
      have hstr' : ¬(xs'.getLast? = some a ∧ ys.head? = some b) := by
        cases xs' with
        | nil => intro h; simp at h
        | cons d xs'' => intro h; exact hstr ⟨by simpa using h.1, h.2⟩
      have hnpre2 : ¬([a, b].isPrefixOf (c :: (xs' ++ ys)) = true) := by
        intro hpre
        obtain ⟨t, ht⟩ := List.isPrefixOf_iff_prefix.mp hpre
        have hac : a = c := (List.cons_eq_cons.mp ht).1
        cases xs' with
        | nil =>
          have hb : ys.head? = some b := by
            cases ys with
            | nil => simp at ht
            | cons y ys' =>
              have h2 := (List.cons_eq_cons.mp ht).2
              simp only [List.nil_append] at h2
              have hby := (List.cons_eq_cons.mp h2).1
              simp [← hby]
          exact hstr ⟨by simp [hac], hb⟩
        | cons d xs'' =>
          apply hnpre
          have h2 := (List.cons_eq_cons.mp ht).2
          have hbd : b = d := by
            simp only [List.cons_append] at h2
            exact (List.cons_eq_cons.mp h2).1
          exact List.isPrefixOf_iff_prefix.mpr ⟨xs'', by simp [hac, hbd]⟩
      show splitFirst [a, b] (c :: (xs' ++ ys)) = none
      unfold splitFirst
      rw [if_neg hnpre2, ih ys hxs' hys hstr']

theorem jsSplitFuel_ne_nil (sep : List Char) (fuel : Nat) (l : List Char) :
    jsSplitFuel sep fuel l ≠ [] := by
  cases fuel with
  | zero => simp [jsSplitFuel]
  | succ f =>
    unfold jsSplitFuel
    cases h : splitFirst sep l with
    | none => simp
    | some pp => simp

theorem joinWith_jsSplitFuel (a : Char) (s' : List Char) :
    ∀ fuel l, l.length ≤ fuel →
      joinWith (a :: s') (jsSplitFuel (a :: s') fuel l) = l := by
  intro fuel
  induction fuel with
  | zero =>
    intro l hl
    have hnil : l = [] := List.length_eq_zero.mp (Nat.le_zero.mp hl)
    subst hnil; rfl
  | succ f ih =>
    intro l hl
    unfold jsSplitFuel
    cases h : splitFirst (a :: s') l with
    | none => rfl
    | some pp =>
      obtain ⟨pre, post⟩ := pp
      have hsound := splitFirst_sound (a :: s') l pre post h
      have hlen : post.length ≤ f := by
        have := congrArg List.length hsound
        simp [List.length_append] at this
        omega
      cases hne : jsSplitFuel (a :: s') f post with
      | nil => exact absurd hne (jsSplitFuel_ne_nil _ _ _)
      | cons q qs =>
        show joinWith (a :: s') (pre :: jsSplitFuel (a :: s') f post) = l
        rw [hne]
        show pre ++ (a :: s') ++ joinWith (a :: s') (q :: qs) = l
        rw [← hne, ih post hlen]
        exact hsound.symm

/-- One unfolding of the split when a match is found, fuel exposed. -/
theorem jsSplitFuel_step (sep : List Char) (f : Nat) (l pre post : List Char)
    (h : splitFirst sep l = some (pre, post)) :
    jsSplitFuel sep (f + 1) l = pre :: jsSplitFuel sep f post := by
  conv_lhs => unfold jsSplitFuel
  rw [h]

/-- A clean list never splits, whatever the fuel. -/
theorem jsSplitFuel_clean (sep : List Char) (f : Nat) (l : List Char)
    (h : splitFirst sep l = none) : jsSplitFuel sep f l = [l] := by
  cases f with
  | zero => rfl
  | succ g => unfold jsSplitFuel; rw [h]

/-- Current-format decode: `content::kind::id` parses to `(kind, id)` when the
kind has no colon and the id has no `::` occurrence. -/
theorem parseContentId_current (k e : String)
    (hk : ∀ c ∈ k.toList, c ≠ ':')
    (he : splitFirst dcolon e.toList = none) :
    parseContentId ("content::" ++ k ++ "::" ++ e) = (k, e) := by
  have hform : ("content::" ++ k ++ "::" ++ e).toList
      = ("content".toList ++ dcolon) ++ ((k.toList ++ dcolon) ++ e.toList) := by
    rw [show ("content::" ++ k ++ "::" ++ e).toList
        = "content::".toList ++ k.toList ++ "::".toList ++ e.toList from rfl]
    rw [show ("content::".toList : List Char) = "content".toList ++ dcolon from by decide]
    rw [show ("::".toList : List Char) = dcolon from by decide]
    simp [List.append_assoc]
  have hsplit1 : splitFirst dcolon (("content::" ++ k ++ "::" ++ e).toList)
      = some ("content".toList, (k.toList ++ dcolon) ++ e.toList) := by
    rw [hform]
    exact splitFirst_prepend_clean ':' [':'] "content".toList
      ((k.toList ++ dcolon) ++ e.toList) (by decide)
  have hsplit2 : splitFirst dcolon ((k.toList ++ dcolon) ++ e.toList)
      = some (k.toList, e.toList) :=
    splitFirst_prepend_clean ':' [':'] k.toList e.toList hk
  have hlen : 2 ≤ (("content::" ++ k ++ "::" ++ e).toList).length := by
    rw [hform]
    simp [List.length_append]
  obtain ⟨f, hf⟩ : ∃ f, (("content::" ++ k ++ "::" ++ e).toList).length = f + 2 :=
    ⟨(("content::" ++ k ++ "::" ++ e).toList).length - 2, by omega⟩
  have hsegs : jsSplitList dcolon (("content::" ++ k ++ "::" ++ e).toList)
      = ["content".toList, k.toList, e.toList] := by
    unfold jsSplitList
    rw [hf, jsSplitFuel_step dcolon (f + 1) _ _ _ hsplit1,
      jsSplitFuel_step dcolon f _ _ _ hsplit2, jsSplitFuel_clean dcolon f _ he]
  unfold parseContentId
  rw [if_pos (by rw [jsIncludes, hsplit1]; rfl)]
  rw [hsegs]
  rfl

/-- Legacy-format decode: `content-kind-id` parses to `(kind, id)` when the
kind has neither colon nor hyphen and the id has no `::` occurrence. -/
theorem parseContentId_legacy (k e : String)
    (hk : ∀ c ∈ k.toList, c ≠ ':')
    (hkh : ∀ c ∈ k.toList, c ≠ '-')
    (he : splitFirst dcolon e.toList = none) :
    parseContentId ("content-" ++ k ++ "-" ++ e) = (k, e) := by
  have hform : ("content-" ++ k ++ "-" ++ e).toList
      = "content-".toList ++ (k.toList ++ (['-'] ++ e.toList)) := by
    rw [show ("content-" ++ k ++ "-" ++ e).toList
        = "content-".toList ++ k.toList ++ "-".toList ++ e.toList from rfl]
    simp [List.append_assoc]
  have hn1 : splitFirst dcolon (['-'] ++ e.toList) = none := by
    refine splitFirst_append_none ':' ':' ['-'] e.toList rfl he ?_
    intro h
    exact absurd h.1 (by decide)
  have hn2 : splitFirst dcolon (k.toList ++ (['-'] ++ e.toList)) = none := by
    refine splitFirst_append_none ':' ':' k.toList _ (splitFirst_none_of_clean ':' [':'] k.toList hk) hn1 ?_
    intro h
    exact hk ':' (List.mem_of_mem_getLast? h.1) rfl
  have hnodc : splitFirst dcolon (("content-" ++ k ++ "-" ++ e).toList) = none := by
    rw [hform]
    refine splitFirst_append_none ':' ':' "content-".toList _ (by rfl) hn2 ?_
    intro h
    have h1 := h.1
    rw [show (("content-".toList : List Char)).getLast? = some '-' from by decide] at h1
    exact absurd h1 (by decide)
  have hneq : ¬("content-" ++ k ++ "-" ++ e = "content-all") := by
    intro h
    have hl := congrArg String.toList h
    rw [show ("content-" ++ k ++ "-" ++ e).toList
        = "content-".toList ++ (k.toList ++ ('-' :: e.toList)) from by
          rw [hform]; rfl] at hl
    rw [show ("content-all".toList : List Char)
        = "content-".toList ++ ['a', 'l', 'l'] from by decide] at hl
    have hcan := List.append_cancel_left hl
    have hmem : '-' ∈ (['a', 'l', 'l'] : List Char) := by
      rw [← hcan]
      exact List.mem_append_right _ (List.mem_cons_self _ _)
    exact absurd hmem (by decide)
  have hform2 : ("content-" ++ k ++ "-" ++ e).toList
      = ("content".toList ++ ['-']) ++ ((k.toList ++ ['-']) ++ e.toList) := by
    rw [hform]
    rw [show ("content-".toList : List Char) = "content".toList ++ ['-'] from by decide]
    simp [List.append_assoc]
  have hsplit1 : splitFirst ['-'] (("content-" ++ k ++ "-" ++ e).toList)
      = some ("content".toList, (k.toList ++ ['-']) ++ e.toList) := by
    rw [hform2]
    exact splitFirst_prepend_clean '-' [] "content".toList
      ((k.toList ++ ['-']) ++ e.toList) (by decide)
  have hsplit2 : splitFirst ['-'] ((k.toList ++ ['-']) ++ e.toList)
      = some (k.toList, e.toList) :=
    splitFirst_prepend_clean '-' [] k.toList e.toList hkh
  have hlen : (("content-" ++ k ++ "-" ++ e).toList).length
      = 9 + k.toList.length + e.toList.length := by
    rw [hform]
    simp [List.length_append]
    omega
  obtain ⟨f, hf, hfe⟩ : ∃ f, (("content-" ++ k ++ "-" ++ e).toList).length = f + 2 ∧
      e.toList.length ≤ f :=
    ⟨(("content-" ++ k ++ "-" ++ e).toList).length - 2, by omega, by omega⟩
  have hsegs : jsSplitList ['-'] (("content-" ++ k ++ "-" ++ e).toList)
      = "content".toList :: k.toList :: jsSplitFuel ['-'] f e.toList := by
    unfold jsSplitList
    rw [hf, jsSplitFuel_step ['-'] (f + 1) _ _ _ hsplit1,
      jsSplitFuel_step ['-'] f _ _ _ hsplit2]
  unfold parseContentId
  rw [if_neg (by rw [jsIncludes, hnodc]; simp), if_neg hneq, hsegs]
  show (String.mk k.toList, String.mk (joinWith ['-'] (jsSplitFuel ['-'] f e.toList))) = (k, e)
  rw [joinWith_jsSplitFuel '-' [] f e.toList hfe]
  rfl

/-- C4 (amended): for every kind containing neither a hyphen nor a colon and
every entityId not containing the current `::` separator, the ContentReference
decoder yields the same (kind, entityId) for the current-format string as for
the legacy hyphen-format string, and the fixed legacy sentinel `content-all`
decodes to the All context.  (The restriction on the kind is forced: a kind
containing a hyphen or colon collides with the separators, see the
counterexample; the four kinds the encoder emits — all/track/artist/playlist —
satisfy it.) -/
theorem c4_content_reference_formats (k e : String)
    (hk : ∀ c ∈ k.toList, c ≠ ':')
    (hkh : ∀ c ∈ k.toList, c ≠ '-')
    (he : splitFirst dcolon e.toList = none) :
    parseContentId ("content::" ++ k ++ "::" ++ e) = (k, e) ∧
    parseContentId ("content-" ++ k ++ "-" ++ e) = (k, e) ∧
    parseContentId "content-all" = ("all", "") :=
  ⟨parseContentId_current k e hk he, parseContentId_legacy k e hk hkh he, by decide⟩

/-- Counterexample to C4 as stated: for the kind `x-y` and entity id `z`
(which contains no `::`), the two formats disagree — the current format
decodes to `(x-y, z)` while the legacy format decodes to `(x, y-z)`. -/
theorem c4_counterexample :
    parseContentId "content::x-y::z" = ("x-y", "z") ∧
    parseContentId "content-x-y-z" = ("x", "y-z") ∧
    (("x-y" : String), ("z" : String)) ≠ (("x" : String), ("y-z" : String)) := by
  refine ⟨?_, ?_, ?_⟩ <;> decide

/-- Witness for C4 (amended) at kind `playlist` and a hyphenated entity id. -/
theorem c4_content_reference_formats_witness :
    parseContentId "content::playlist::pl.2024-mix" = ("playlist", "pl.2024-mix") ∧
    parseContentId "content-playlist-pl.2024-mix" = ("playlist", "pl.2024-mix") ∧
    parseContentId "content-all" = ("all", "") :=
  c4_content_reference_formats "playlist" "pl.2024-mix" (by decide) (by decide) (by decide)

/-! ## Support lemmas for the token-shaped decode -/

/-- Induction principle following the three-byte chunking of the encoders. -/
theorem chunk3_induction {P : List Nat → Prop} (h0 : P []) (h1 : ∀ a, P [a])
    (h2 : ∀ a b, P [a, b]) (h3 : ∀ a b c rest, P rest → P (a :: b :: c :: rest)) :
    ∀ l, P l
  | [] => h0
  | [a] => h1 a
  | [a, b] => h2 a b
  | a :: b :: c :: rest => h3 a b c rest (chunk3_induction h0 h1 h2 h3 rest)

/-- The `=` padding `b64encodeBytes` appends after the alphabet characters. -/
def padFor (l : List Nat) : List Char := List.replicate ((3 - l.length % 3) % 3) '='

theorem b64encodeBytes_eq (l : List Nat) :
    b64encodeBytes l = (bytesToSextets l).map b64char ++ padFor l := by
  induction l using chunk3_induction with
  | h0 => rfl
  | h1 a => rfl
  | h2 a b => rfl
  | h3 a b c rest ih =>
    have hpad : padFor (a :: b :: c :: rest) = padFor rest := by
      unfold padFor
      congr 2
      simp only [List.length_cons]
      omega
    simp only [b64encodeBytes, bytesToSextets, List.map_cons, List.cons_append, hpad, ih]

theorem bytesToSextets_lt (l : List Nat) (hl : ∀ x ∈ l, x < 256) :
    ∀ y ∈ bytesToSextets l, y < 64 := by
  induction l using chunk3_induction with
  | h0 => intro y hy; simp [bytesToSextets] at hy
  | h1 a =>
    intro y hy
    have ha := hl a (by simp)
    simp [bytesToSextets] at hy
    rcases hy with h | h <;> omega
  | h2 a b =>
    intro y hy
    have ha := hl a (by simp)
    have hb := hl b (by simp)
    simp [bytesToSextets] at hy
    rcases hy with h | h | h <;> omega
  | h3 a b c rest ih =>
    intro y hy
    have ha := hl a (by simp)
    have hb := hl b (by simp)
    have hc := hl c (by simp)
    simp only [bytesToSextets, List.mem_cons] at hy
    rcases hy with h | h | h | h | h
    · omega
    · omega
    · omega
    · omega
    · exact ih (fun x hx => hl x (by simp [hx])) y h

theorem b64encodeBytes_len_mod (l : List Nat) : (b64encodeBytes l).length % 4 = 0 := by
  induction l using chunk3_induction with
  | h0 => rfl
  | h1 a => simp [b64encodeBytes]
  | h2 a b => simp [b64encodeBytes]
  | h3 a b c rest ih =>
    simp only [b64encodeBytes, List.length_cons]
    omega

theorem bytesToSextets_len_mod (l : List Nat) : (bytesToSextets l).length % 4 ≠ 1 := by
  induction l using chunk3_induction with
  | h0 => simp [bytesToSextets]
  | h1 a => simp [bytesToSextets]
  | h2 a b => simp [bytesToSextets]
  | h3 a b c rest ih =>
    simp only [bytesToSextets, List.length_cons]
    omega

theorem b64char_not_ws : ∀ n : Fin 64, isB64Ws (b64char n.val) = false := by decide

theorem b64char_ne_pad : ∀ n : Fin 64, b64char n.val ≠ '=' := by decide

theorem b64index_b64char : ∀ n : Fin 64, b64index (b64char n.val) = some n.val := by decide

theorem b64encode_filter_id (l : List Nat) (hl : ∀ x ∈ l, x < 256) :
    (b64encodeBytes l).filter (fun c => !isB64Ws c) = b64encodeBytes l := by
  apply List.filter_eq_self.mpr
  intro c hc
  rw [b64encodeBytes_eq] at hc
  rcases List.mem_append.mp hc with hmem | hmem
  · obtain ⟨y, hy, hyc⟩ := List.mem_map.mp hmem
    have hlt : y < 64 := bytesToSextets_lt l hl y hy
    subst hyc
    simp [b64char_not_ws ⟨y, hlt⟩]
  · have hpc : c = '=' := List.eq_of_mem_replicate hmem
    subst hpc
    decide

theorem stripPad_two (l r : List Char) (h : l.reverse = '=' :: '=' :: r) :
    stripPad l = r.reverse := by
  unfold stripPad
  rw [h]
  rfl

theorem stripPad_one (l r : List Char) (c : Char) (hc : c ≠ '=')
    (h : l.reverse = '=' :: c :: r) : stripPad l = (c :: r).reverse := by
  unfold stripPad
  rw [h]
  split
  · rename_i heq
    have := (List.cons_eq_cons.mp (List.cons_eq_cons.mp heq).2).1
    exact absurd this hc
  · rename_i heq
    rw [← (List.cons_eq_cons.mp heq).2]
  · rename_i hne1 hne2
    exact (hne2 (c :: r) rfl).elim

theorem stripPad_clean (l : List Char) (h : ∀ c ∈ l, c ≠ '=') : stripPad l = l := by
  unfold stripPad
  cases hrev : l.reverse with
  | nil => rfl
  | cons c cr =>
    have hcne : c ≠ '=' := h c (by rw [← List.mem_reverse, hrev]; simp)
    split
    · rename_i heq
      exact absurd (List.cons_eq_cons.mp heq).1 hcne
    · rename_i heq
      exact absurd (List.cons_eq_cons.mp heq).1 hcne
    · rfl

theorem stripPad_core_pad (core : List Char) (hcore : ∀ c ∈ core, c ≠ '=') :
    stripPad core = core ∧
    stripPad (core ++ ['=']) = core ∧
    stripPad (core ++ ['=', '=']) = core := by
  refine ⟨stripPad_clean core hcore, ?_, ?_⟩
  · cases hrev : core.reverse with
    | nil =>
      have hc : core = [] := by simpa using congrArg List.reverse hrev
      subst hc
      rfl
    | cons c cr =>
      have hcne : c ≠ '=' := hcore c (by rw [← List.mem_reverse, hrev]; simp)
      have hrev2 : (core ++ ['=']).reverse = '=' :: c :: cr := by
        simp [List.reverse_append, hrev]
      rw [stripPad_one (core ++ ['=']) cr c hcne hrev2, ← hrev]
      simp
  · have hrev2 : (core ++ ['=', '=']).reverse = '=' :: '=' :: core.reverse := by
      simp [List.reverse_append]
    rw [stripPad_two _ _ hrev2]
    simp

theorem mapM_b64index_map_b64char (l : List Nat) (hl : ∀ x ∈ l, x < 64) :
    (l.map b64char).mapM b64index = some l := by
  induction l with
  | nil => rfl
  | cons x xs ih =>
    have hx : b64index (b64char x) = some x := b64index_b64char ⟨x, hl x (by simp)⟩
    simp only [List.map_cons, List.mapM_cons, hx, Option.pure_def, Option.bind_eq_bind,
      Option.some_bind, ih (fun y hy => hl y (by simp [hy]))]

theorem sextetsToBytes_bytesToSextets (l : List Nat) (hl : ∀ x ∈ l, x < 256) :
    sextetsToBytes (bytesToSextets l) = l := by
  induction l using chunk3_induction with
  | h0 => rfl
  | h1 a =>
    have ha := hl a (by simp)
    simp only [bytesToSextets, sextetsToBytes]
    congr 1
    omega
  | h2 a b =>
    have ha := hl a (by simp)
    have hb := hl b (by simp)
    simp only [bytesToSextets, sextetsToBytes]
    congr 1
    · omega
    · congr 1
      omega
  | h3 a b c rest ih =>
    have ha := hl a (by simp)
    have hb := hl b (by simp)
    have hc := hl c (by simp)
    simp only [bytesToSextets, sextetsToBytes]
    rw [ih (fun x hx => hl x (by simp [hx]))]
    congr 1
    · omega
    · congr 1
      · omega
      · congr 1
        omega

/-- Forgiving-base64 decode inverts `btoa` on every encodable string. -/
theorem atob_btoa (s e : String) (h : btoa s = some e) : atob e = some s := by
  unfold btoa at h
  by_cases hall : s.toList.all (fun c => c.toNat < 256) = true
  swap
  · rw [if_neg hall] at h
    exact absurd h (by simp)
  rw [if_pos hall] at h
  injection h with he
  subst he
  have hlt : ∀ x ∈ s.toList.map Char.toNat, x < 256 := by
    intro x hx
    obtain ⟨c, hc, hcx⟩ := List.mem_map.mp hx
    have hb := List.all_eq_true.mp hall c hc
    subst hcx
    exact of_decide_eq_true hb
  have hsx : ∀ y ∈ bytesToSextets (s.toList.map Char.toNat), y < 64 :=
    bytesToSextets_lt _ hlt
  have hcore : ∀ c ∈ (bytesToSextets (s.toList.map Char.toNat)).map b64char, c ≠ '=' := by
    intro c hc
    obtain ⟨y, hy, hyc⟩ := List.mem_map.mp hc
    subst hyc
    exact b64char_ne_pad ⟨y, hsx y hy⟩
  have hfil : (b64encodeBytes (s.toList.map Char.toNat)).filter (fun c => !isB64Ws c)
      = b64encodeBytes (s.toList.map Char.toNat) := b64encode_filter_id _ hlt
  have hstrip : stripPad (b64encodeBytes (s.toList.map Char.toNat))
      = (bytesToSextets (s.toList.map Char.toNat)).map b64char := by
    rw [b64encodeBytes_eq]
    have hsp := stripPad_core_pad ((bytesToSextets (s.toList.map Char.toNat)).map b64char) hcore
    have hk : (3 - (s.toList.map Char.toNat).length % 3) % 3 = 0 ∨
        (3 - (s.toList.map Char.toNat).length % 3) % 3 = 1 ∨
        (3 - (s.toList.map Char.toNat).length % 3) % 3 = 2 := by omega
    unfold padFor
    rcases hk with hk | hk | hk <;> rw [hk]
    · simpa using hsp.1
    · exact hsp.2.1
    · exact hsp.2.2
  unfold atob
  dsimp only
  rw [show (String.mk (b64encodeBytes (s.toList.map Char.toNat))).toList
      = b64encodeBytes (s.toList.map Char.toNat) from rfl]
  rw [hfil, if_pos (b64encodeBytes_len_mod _), hstrip]
  rw [if_neg (by rw [List.length_map]; exact bytesToSextets_len_mod _)]
  rw [mapM_b64index_map_b64char _ hsx]
  dsimp only
  rw [show sextetsToBytes (bytesToSextets (s.toList.map Char.toNat))
      = s.toList.map Char.toNat from sextetsToBytes_bytesToSextets _ hlt]
  rw [List.map_map]
  have hid : s.toList.map (Char.ofNat ∘ Char.toNat) = s.toList := by
    rw [show Char.ofNat ∘ Char.toNat = fun c => Char.ofNat (Char.toNat c) from rfl]
    simp only [Char.ofNat_toNat, List.map_id']
  rw [hid]
  rfl

/-! ## JSON string-literal round-trip -/

theorem hexVal_hexDigit : ∀ n : Fin 16, hexVal (hexDigit n.val) = some n.val := by decide

theorem escapeList_cons (c : Char) (l : List Char) :
    escapeList (c :: l) = escapeChar c ++ escapeList l := by
  simp [escapeList]

theorem parseStringBody_quote (f : Nat) (rest : List Char) :
    parseStringBody (f + 1) ('"' :: rest) = some ([], rest) := rfl

theorem parseStringBody_escQuote (f : Nat) (rest : List Char) :
    parseStringBody (f + 1) ('\\' :: '"' :: rest)
      = (parseStringBody f rest).map (fun p => ('"' :: p.1, p.2)) := rfl

theorem parseStringBody_escBackslash (f : Nat) (rest : List Char) :
    parseStringBody (f + 1) ('\\' :: '\\' :: rest)
      = (parseStringBody f rest).map (fun p => ('\\' :: p.1, p.2)) := rfl

theorem parseStringBody_escB (f : Nat) (rest : List Char) :
    parseStringBody (f + 1) ('\\' :: 'b' :: rest)
      = (parseStringBody f rest).map (fun p => ('\x08' :: p.1, p.2)) := rfl

theorem parseStringBody_escT (f : Nat) (rest : List Char) :
    parseStringBody (f + 1) ('\\' :: 't' :: rest)
      = (parseStringBody f rest).map (fun p => ('\x09' :: p.1, p.2)) := rfl

theorem parseStringBody_escN (f : Nat) (rest : List Char) :
    parseStringBody (f + 1) ('\\' :: 'n' :: rest)
      = (parseStringBody f rest).map (fun p => ('\x0a' :: p.1, p.2)) := rfl

theorem parseStringBody_escF (f : Nat) (rest : List Char) :
    parseStringBody (f + 1) ('\\' :: 'f' :: rest)
      = (parseStringBody f rest).map (fun p => ('\x0c' :: p.1, p.2)) := rfl

theorem parseStringBody_escR (f : Nat) (rest : List Char) :
    parseStringBody (f + 1) ('\\' :: 'r' :: rest)
      = (parseStringBody f rest).map (fun p => ('\x0d' :: p.1, p.2)) := rfl

theorem parseStringBody_plain (f : Nat) (c : Char) (rest : List Char)
    (h1 : c ≠ '"') (h2 : c ≠ '\\') (h8 : ¬c.toNat < 32) :
    parseStringBody (f + 1) (c :: rest)
      = (parseStringBody f rest).map (fun p => (c :: p.1, p.2)) := by
  conv_lhs => rw [parseStringBody.eq_def]
  dsimp only
  rw [if_neg h1, if_neg h2, if_neg h8]

theorem parseStringBody_unicode (f : Nat) (c3 c4 : Char) (a b : Nat) (rest : List Char)
    (hh3 : hexVal c3 = some a) (hh4 : hexVal c4 = some b) :
    parseStringBody (f + 1) ('\\' :: 'u' :: '0' :: '0' :: c3 :: c4 :: rest)
      = (parseStringBody f rest).map
          (fun p => (Char.ofNat (((0 * 16 + 0) * 16 + a) * 16 + b) :: p.1, p.2)) := by
  conv_lhs => rw [parseStringBody]
  rw [show hexVal '0' = some 0 from rfl]
  rw [hh3, hh4]
  rfl

theorem parseStringBody_escape :
    ∀ (l rest : List Char) (fuel : Nat), l.length + 1 ≤ fuel →
      parseStringBody fuel (escapeList l ++ '"' :: rest) = some (l, rest) := by
  intro l
  induction l with
  | nil =>
    intro rest fuel hf
    obtain ⟨f, rfl⟩ : ∃ f, fuel = f + 1 := ⟨fuel - 1, by omega⟩
    exact parseStringBody_quote f rest
  | cons c l' ih =>
    intro rest fuel hf
    obtain ⟨f, rfl⟩ : ∃ f, fuel = f + 1 := ⟨fuel - 1, by omega⟩
    have hfl : l'.length + 1 ≤ f := by
      simp only [List.length_cons] at hf
      omega
    have hrec := ih rest f hfl
    rw [escapeList_cons, List.append_assoc]
    by_cases h1 : c = '"'
    · subst h1
      show parseStringBody (f + 1) ('\\' :: '"' :: (escapeList l' ++ '"' :: rest))
          = some ('"' :: l', rest)
      rw [parseStringBody_escQuote, hrec]
      rfl
    · by_cases h2 : c = '\\'
      · subst h2
        show parseStringBody (f + 1) ('\\' :: '\\' :: (escapeList l' ++ '"' :: rest))
            = some ('\\' :: l', rest)
        rw [parseStringBody_escBackslash, hrec]
        rfl
      · by_cases h3 : c = '\x08'
        · subst h3
          show parseStringBody (f + 1) ('\\' :: 'b' :: (escapeList l' ++ '"' :: rest))
              = some ('\x08' :: l', rest)
          rw [parseStringBody_escB, hrec]
          rfl
        · by_cases h4 : c = '\x09'
          · subst h4
            show parseStringBody (f + 1) ('\\' :: 't' :: (escapeList l' ++ '"' :: rest))
                = some ('\x09' :: l', rest)
            rw [parseStringBody_escT, hrec]
            rfl
          · by_cases h5 : c = '\x0a'
            · subst h5
              show parseStringBody (f + 1) ('\\' :: 'n' :: (escapeList l' ++ '"' :: rest))
                  = some ('\x0a' :: l', rest)
              rw [parseStringBody_escN, hrec]
              rfl
            · by_cases h6 : c = '\x0c'
              · subst h6
                show parseStringBody (f + 1) ('\\' :: 'f' :: (escapeList l' ++ '"' :: rest))
                    = some ('\x0c' :: l', rest)
                rw [parseStringBody_escF, hrec]
                rfl
              · by_cases h7 : c = '\x0d'
                · subst h7
                  show parseStringBody (f + 1) ('\\' :: 'r' :: (escapeList l' ++ '"' :: rest))
                      = some ('\x0d' :: l', rest)
                  rw [parseStringBody_escR, hrec]
                  rfl
                · by_cases h8 : c.toNat < 32
                  · have hhi : hexVal (hexDigit (c.toNat / 16)) = some (c.toNat / 16) :=
                      hexVal_hexDigit ⟨c.toNat / 16, by omega⟩
                    have hlo : hexVal (hexDigit (c.toNat % 16)) = some (c.toNat % 16) :=
                      hexVal_hexDigit ⟨c.toNat % 16, by omega⟩
                    have hcode : ((0 * 16 + 0) * 16 + c.toNat / 16) * 16 + c.toNat % 16
                        = c.toNat := by omega
                    rw [show escapeChar c
                        = ['\\', 'u', '0', '0', hexDigit (c.toNat / 16),
                            hexDigit (c.toNat % 16)] from by
                      unfold escapeChar
                      rw [if_neg h1, if_neg h2, if_neg h3, if_neg h4, if_neg h5, if_neg h6,
                        if_neg h7, if_pos h8]]
                    show parseStringBody (f + 1)
                        ('\\' :: 'u' :: '0' :: '0' :: hexDigit (c.toNat / 16)
                          :: hexDigit (c.toNat % 16) :: (escapeList l' ++ '"' :: rest))
                        = some (c :: l', rest)
                    rw [parseStringBody_unicode f _ _ _ _ _ hhi hlo, hrec, hcode,
                      Char.ofNat_toNat]
                    rfl
                  · rw [show escapeChar c = [c] from by
                      unfold escapeChar
                      rw [if_neg h1, if_neg h2, if_neg h3, if_neg h4, if_neg h5, if_neg h6,
                        if_neg h7, if_neg h8]]
                    show parseStringBody (f + 1) (c :: (escapeList l' ++ '"' :: rest))
                        = some (c :: l', rest)
                    rw [parseStringBody_plain f c _ h1 h2 h8, hrec]
                    rfl

theorem escapeChar_ne_nil (c : Char) : escapeChar c ≠ [] := by
  unfold escapeChar
  repeat' split
  all_goals simp

theorem length_le_escapeList (l : List Char) : l.length ≤ (escapeList l).length := by
  induction l with
  | nil => simp [escapeList]
  | cons c l' ih =>
    rw [escapeList_cons, List.length_append, List.length_cons]
    have h1 : 0 < (escapeChar c).length := List.length_pos.mpr (escapeChar_ne_nil c)
    omega

theorem skipWs_cons (c : Char) (l : List Char) (h : jsonWsChar c = false) :
    skipWs (c :: l) = c :: l := by
  simp [skipWs, List.dropWhile_cons, h]

theorem parseValue_str (f : Nat) (body tail : List Char) :
    parseValue (f + 1) ('"' :: (escapeList body ++ '"' :: tail))
      = some (Json.str (String.mk body), tail) := by
  have hstep : parseValue (f + 1) ('"' :: (escapeList body ++ '"' :: tail))
      = (parseStringBody ((escapeList body ++ '"' :: tail).length + 1)
          (escapeList body ++ '"' :: tail)).map
          (fun p => (Json.str (String.mk p.1), p.2)) := rfl
  rw [hstep, parseStringBody_escape body tail _ (by
    rw [List.length_append, List.length_cons]
    have := length_le_escapeList body
    omega)]
  rfl

theorem parseValue_objStep (f : Nat) (rest : List Char) :
    parseValue (f + 1) ('\x7b' :: rest) = parseFields f true (skipWs rest) := rfl

theorem parseFields_strField_last (f : Nat) (ae : Bool) (key val tail : List Char) :
    parseFields (f + 2) ae
      ('"' :: (escapeList key ++ '"' :: ':' :: '"' :: (escapeList val ++ '"' :: '\x7d' :: tail)))
      = some (Json.obj [(String.mk key, Json.str (String.mk val))], tail) := by
  have hstep : parseFields (f + 2) ae
      ('"' :: (escapeList key ++ '"' :: ':' :: '"' :: (escapeList val ++ '"' :: '\x7d' :: tail)))
      = (match parseStringBody
            ((escapeList key ++ '"' :: ':' :: '"' :: (escapeList val ++ '"' :: '\x7d' :: tail)).length + 1)
            (escapeList key ++ '"' :: ':' :: '"' :: (escapeList val ++ '"' :: '\x7d' :: tail)) with
        | none => none
        | some (k, r1) =>
          match skipWs r1 with
          | ':' :: r2 =>
            match parseValue (f + 1) (skipWs r2) with
            | none => none
            | some (v, r3) =>
              match skipWs r3 with
              | '\x7d' :: r4 => some (Json.obj [(String.mk k, v)], r4)
              | ',' :: r4 =>
                match parseFields (f + 1) false (skipWs r4) with
                | some (Json.obj fields, r5) => some (Json.obj ((String.mk k, v) :: fields), r5)
                | _ => none
              | _ => none
          | _ => none) := rfl
  rw [hstep, parseStringBody_escape key _ _ (by
    rw [List.length_append, List.length_cons]
    have := length_le_escapeList key
    omega)]
  show (match skipWs (':' :: '"' :: (escapeList val ++ '"' :: '\x7d' :: tail)) with
        | ':' :: r2 =>
          match parseValue (f + 1) (skipWs r2) with
          | none => none
          | some (v, r3) =>
            match skipWs r3 with
            | '\x7d' :: r4 => some (Json.obj [(String.mk key, v)], r4)
            | ',' :: r4 =>
              match parseFields (f + 1) false (skipWs r4) with
              | some (Json.obj fields, r5) => some (Json.obj ((String.mk key, v) :: fields), r5)
              | _ => none
            | _ => none
        | _ => none) = _
  rw [skipWs_cons ':' _ (by decide)]
  show (match parseValue (f + 1) (skipWs ('"' :: (escapeList val ++ '"' :: '\x7d' :: tail))) with
        | none => none
        | some (v, r3) =>
          match skipWs r3 with
          | '\x7d' :: r4 => some (Json.obj [(String.mk key, v)], r4)
          | ',' :: r4 =>
            match parseFields (f + 1) false (skipWs r4) with
            | some (Json.obj fields, r5) => some (Json.obj ((String.mk key, v) :: fields), r5)
            | _ => none
          | _ => none) = _
  rw [skipWs_cons '"' _ (by decide), parseValue_str f val ('\x7d' :: tail)]
  rfl

theorem parseFields_strField_comma (f : Nat) (ae : Bool) (key val rest : List Char) :
    parseFields (f + 2) ae
      ('"' :: (escapeList key ++ '"' :: ':' :: '"' :: (escapeList val ++ '"' :: ',' :: rest)))
      = (match parseFields (f + 1) false (skipWs rest) with
        | some (Json.obj fields, r5) =>
            some (Json.obj ((String.mk key, Json.str (String.mk val)) :: fields), r5)
        | _ => none) := by
  have hstep : parseFields (f + 2) ae
      ('"' :: (escapeList key ++ '"' :: ':' :: '"' :: (escapeList val ++ '"' :: ',' :: rest)))
      = (match parseStringBody
            ((escapeList key ++ '"' :: ':' :: '"' :: (escapeList val ++ '"' :: ',' :: rest)).length + 1)
            (escapeList key ++ '"' :: ':' :: '"' :: (escapeList val ++ '"' :: ',' :: rest)) with
        | none => none
        | some (k, r1) =>
          match skipWs r1 with
          | ':' :: r2 =>
            match parseValue (f + 1) (skipWs r2) with
            | none => none
            | some (v, r3) =>
              match skipWs r3 with
              | '\x7d' :: r4 => some (Json.obj [(String.mk k, v)], r4)
              | ',' :: r4 =>
                match parseFields (f + 1) false (skipWs r4) with
                | some (Json.obj fields, r5) => some (Json.obj ((String.mk k, v) :: fields), r5)
                | _ => none
              | _ => none
          | _ => none) := rfl
  rw [hstep, parseStringBody_escape key _ _ (by
    rw [List.length_append, List.length_cons]
    have := length_le_escapeList key
    omega)]
  show (match skipWs (':' :: '"' :: (escapeList val ++ '"' :: ',' :: rest)) with
        | ':' :: r2 =>
          match parseValue (f + 1) (skipWs r2) with
          | none => none
          | some (v, r3) =>
            match skipWs r3 with
            | '\x7d' :: r4 => some (Json.obj [(String.mk key, v)], r4)
            | ',' :: r4 =>
              match parseFields (f + 1) false (skipWs r4) with
              | some (Json.obj fields, r5) => some (Json.obj ((String.mk key, v) :: fields), r5)
              | _ => none
            | _ => none
        | _ => none) = _
  rw [skipWs_cons ':' _ (by decide)]
  show (match parseValue (f + 1) (skipWs ('"' :: (escapeList val ++ '"' :: ',' :: rest))) with
        | none => none
        | some (v, r3) =>
          match skipWs r3 with
          | '\x7d' :: r4 => some (Json.obj [(String.mk key, v)], r4)
          | ',' :: r4 =>
            match parseFields (f + 1) false (skipWs r4) with
            | some (Json.obj fields, r5) => some (Json.obj ((String.mk key, v) :: fields), r5)
            | _ => none
          | _ => none) = _
  rw [skipWs_cons '"' _ (by decide), parseValue_str f val (',' :: rest)]
  show (match skipWs (',' :: rest) with
        | '\x7d' :: r4 => some (Json.obj [(String.mk key, Json.str (String.mk val))], r4)
        | ',' :: r4 =>
          match parseFields (f + 1) false (skipWs r4) with
          | some (Json.obj fields, r5) =>
              some (Json.obj ((String.mk key, Json.str (String.mk val)) :: fields), r5)
          | _ => none
        | _ => none) = _
  rw [skipWs_cons ',' _ (by decide)]
  show (match parseFields (f + 1) false (skipWs rest) with
        | some (Json.obj fields, r5) =>
            some (Json.obj ((String.mk key, Json.str (String.mk val)) :: fields), r5)
        | _ => none) = _
  rfl

theorem parseValue_token (f : Nat) (tid ctx tail : List Char) :
    parseValue (f + 5) ('\x7b' :: '"' ::
      (escapeList ("trackId".toList) ++ '"' :: ':' :: '"' ::
        (escapeList tid ++ '"' :: ',' :: '"' ::
          (escapeList ("context".toList) ++ '"' :: ':' :: '"' ::
            (escapeList ctx ++ '"' :: '\x7d' :: tail)))))
      = some (Json.obj [("trackId", Json.str (String.mk tid)),
          ("context", Json.str (String.mk ctx))], tail) := by
  rw [parseValue_objStep (f + 4), skipWs_cons '"' _ (by decide)]
  rw [show f + 4 = f + 2 + 2 from rfl]
  rw [parseFields_strField_comma (f + 2) true ("trackId".toList) tid
    ('"' :: (escapeList ("context".toList) ++ '"' :: ':' :: '"' ::
      (escapeList ctx ++ '"' :: '\x7d' :: tail)))]
  rw [skipWs_cons '"' _ (by decide)]
  rw [show f + 2 + 1 = f + 1 + 2 from rfl]
  rw [parseFields_strField_last (f + 1) false ("context".toList) ctx tail]
  rfl

theorem quoteString_append (s : String) (x : List Char) :
    quoteString s ++ x = '"' :: (escapeList s.toList ++ '"' :: x) := by
  unfold quoteString
  simp [List.append_assoc]

theorem stringifyToken_toList (t : PlaybackToken) :
    (stringifyToken t).toList
      = '\x7b' :: '"' ::
        (escapeList ("trackId".toList) ++ '"' :: ':' :: '"' ::
          (escapeList t.trackId.toList ++ '"' :: ',' :: '"' ::
            (escapeList ("context".toList) ++ '"' :: ':' :: '"' ::
              (escapeList t.context.toList ++ '"' :: '\x7d' :: [])))) := by
  show '\x7b' :: (((("\"trackId\":".toList ++ quoteString t.trackId) ++
      ",\"context\":".toList) ++ quoteString t.context) ++ ['\x7d']) = _
  simp only [List.append_assoc]
  rw [quoteString_append, quoteString_append]
  rfl

theorem parseJson_stringifyToken (t : PlaybackToken) :
    parseJson (stringifyToken t) = some (tokenJson t) := by
  unfold parseJson
  rw [stringifyToken_toList t, skipWs_cons '\x7b' _ (by decide)]
  obtain ⟨f, hf⟩ : ∃ f,
      ('\x7b' :: '"' ::
        (escapeList ("trackId".toList) ++ '"' :: ':' :: '"' ::
          (escapeList t.trackId.toList ++ '"' :: ',' :: '"' ::
            (escapeList ("context".toList) ++ '"' :: ':' :: '"' ::
              (escapeList t.context.toList ++ '"' :: '\x7d' :: []))))).length + 1 = f + 5 := by
    refine ⟨('\x7b' :: '"' ::
        (escapeList ("trackId".toList) ++ '"' :: ':' :: '"' ::
          (escapeList t.trackId.toList ++ '"' :: ',' :: '"' ::
            (escapeList ("context".toList) ++ '"' :: ':' :: '"' ::
              (escapeList t.context.toList ++ '"' :: '\x7d' :: []))))).length - 4, ?_⟩
    simp [List.length_append]
    omega
  rw [hf, parseValue_token f t.trackId.toList t.context.toList []]
  rfl

theorem hexDigit_lt (n : Nat) : (hexDigit n).toNat < 256 := by
  by_cases h : n < 16
  · exact (show ∀ m : Fin 16, (hexDigit m.val).toNat < 256 by decide) ⟨n, h⟩
  · unfold hexDigit
    rw [List.getD_eq_default]
    · decide
    · rw [show ("0123456789abcdef".toList.length) = 16 from rfl]
      omega

theorem escapeChar_lt (c : Char) (h : c.toNat < 256) :
    ∀ d ∈ escapeChar c, d.toNat < 256 := by
  intro d hd
  unfold escapeChar at hd
  repeat' split at hd
  all_goals simp only [List.mem_cons, List.not_mem_nil, or_false] at hd
  all_goals (repeat' first | (rcases hd with rfl | hd) | subst hd)
  all_goals first | exact h | exact hexDigit_lt _ | decide

theorem escapeList_lt (l : List Char) (h : ∀ c ∈ l, c.toNat < 256) :
    (escapeList l).all (fun c => decide (c.toNat < 256)) = true := by
  rw [List.all_eq_true]
  intro d hd
  unfold escapeList at hd
  simp only [List.mem_flatten, List.mem_map] at hd
  obtain ⟨es, ⟨c, hc, rfl⟩, hdes⟩ := hd
  simp only [decide_eq_true_eq]
  exact escapeChar_lt c (h c hc) d hdes

theorem stringifyToken_lt (t : PlaybackToken)
    (h1 : ∀ c ∈ t.trackId.toList, c.toNat < 256)
    (h2 : ∀ c ∈ t.context.toList, c.toNat < 256) :
    (stringifyToken t).toList.all (fun c => decide (c.toNat < 256)) = true := by
  rw [stringifyToken_toList t]
  simp only [List.all_cons, List.all_append, Bool.and_eq_true, decide_eq_true_eq, List.all_nil]
  repeat' constructor
  all_goals first
    | exact escapeList_lt _ h1
    | exact escapeList_lt _ h2

/-- C1 (amended): for every token whose `trackId` and `context` consist of code
units below 256, `encodeToken` succeeds, and decoding the result recovers
exactly the token's JSON object, which reads back as the original token. -/
theorem c1_token_roundtrip (t : PlaybackToken)
    (h1 : ∀ c ∈ t.trackId.toList, c.toNat < 256)
    (h2 : ∀ c ∈ t.context.toList, c.toNat < 256) :
    ∃ enc, encodeToken t = some enc ∧ decodeToken enc = some (tokenJson t) ∧
      decodeTokenTyped enc = some t := by
  have hb : btoa (stringifyToken t)
      = some (String.mk (b64encodeBytes ((stringifyToken t).toList.map Char.toNat))) := by
    unfold btoa
    rw [if_pos (stringifyToken_lt t h1 h2)]
  have hdec : decodeToken (String.mk (b64encodeBytes ((stringifyToken t).toList.map Char.toNat)))
      = some (tokenJson t) := by
    unfold decodeToken
    rw [atob_btoa _ _ hb]
    exact parseJson_stringifyToken t
  refine ⟨_, ?_, hdec, ?_⟩
  · unfold encodeToken
    exact hb
  · unfold decodeTokenTyped
    rw [hdec]
    rfl

/-- C1 counterexample to the claim as stated: `encodeToken` raises (btoa's
InvalidCharacterError) on a token holding a code unit above 255, and a
malformed input that is valid base64 of valid non-token JSON decodes to that
JSON value, not to the explicit invalid result. -/
theorem c1_counterexample :
    encodeToken ⟨String.mk [Char.ofNat 12354], "all"⟩ = none ∧
    decodeToken "W10=" = some (Json.arr []) ∧
    decodeToken "W10=" ≠ none ∧
    decodeTokenTyped "W10=" = none := by
  refine ⟨rfl, rfl, ?_, rfl⟩
  intro h
  rw [show decodeToken "W10=" = some (Json.arr []) from rfl] at h
  exact Option.noConfusion h

theorem c1_token_roundtrip_witness :
    ∃ enc, encodeToken ⟨"ta", "all"⟩ = some enc ∧
      decodeToken enc = some (tokenJson ⟨"ta", "all"⟩) ∧
      decodeTokenTyped enc = some ⟨"ta", "all"⟩ :=
  c1_token_roundtrip ⟨"ta", "all"⟩ (by decide) (by decide)

/-! ## The `encodeToken` raise inside `buildPlayResponse` -/

theorem encodeToken_isSome (t : PlaybackToken)
    (h1 : ∀ c ∈ t.trackId.toList, c.toNat < 256)
    (h2 : ∀ c ∈ t.context.toList, c.toNat < 256) :
    ∃ e, encodeToken t = some e := by
  unfold encodeToken btoa
  rw [if_pos (stringifyToken_lt t h1 h2)]
  exact ⟨_, rfl⟩

theorem append_lt (a b : String) (ha : ∀ c ∈ a.toList, c.toNat < 256)
    (hb : ∀ c ∈ b.toList, c.toNat < 256) : ∀ c ∈ (a ++ b).toList, c.toNat < 256 := by
  intro c hc
  rw [show (a ++ b).toList = a.toList ++ b.toList from rfl] at hc
  rcases List.mem_append.mp hc with h | h
  · exact ha c h
  · exact hb c h

/-- A stored track whose id holds the code unit U+3042; its title still
matches a latin1 search query. -/
def trackWideId : Track := ⟨String.mk ['w', Char.ofNat 12354], "Alpha", "Artist One", "ar1", "", 100, "2024-01-03"⟩

def sampleDbWide : Db := ⟨[trackWideId], [], []⟩

/-- C8 (amended): Protocol B play intents.  Song/artist intents with an empty
slot fall back to playing everything (context `all` from its first track);
a slot whose search finds nothing yields a spoken not-found message and no
directive; the playlist intent with an empty slot asks for a playlist name;
a found match whose token content (track id, plus the artist or playlist id
embedded in the context string) holds only code units below 256 plays with
REPLACE_ALL at offset 0 and a confirmation utterance naming the match —
otherwise `encodeToken` inside `buildPlayResponse` raises instead of
returning a directive. -/
theorem c8_play_intents (db : Db) (U : UrlBuilder) (q : String) :
    handlePlaySongIntent db U none = handlePlayAllIntent db U ∧
    handlePlayArtistIntent db U none = handlePlayAllIntent db U ∧
    (q ≠ "" → db.searchTracksByTitle q = [] →
      handlePlaySongIntent db U (some q) =
        Except.ok (AlexaResponse.speech (q ++ " が見つかりませんでした。") false)) ∧
    (∀ t ts, q ≠ "" → db.searchTracksByTitle q = t :: ts →
      (∀ c ∈ t.id.toList, c.toNat < 256) →
      handlePlaySongIntent db U (some q) =
        Except.ok (AlexaResponse.play t (U.mp3 t.id) (U.art t.id) ⟨t.id, "single"⟩
          PlayBehavior.replaceAll 0 none (some (t.title ++ " を再生します。")))) ∧
    (q ≠ "" → db.searchTracksByArtist q = [] →
      handlePlayArtistIntent db U (some q) =
        Except.ok (AlexaResponse.speech (q ++ " の曲が見つかりませんでした。") false)) ∧
    (∀ t ts, q ≠ "" → db.searchTracksByArtist q = t :: ts →
      (∀ c ∈ t.id.toList, c.toNat < 256) → (∀ c ∈ t.artistId.toList, c.toNat < 256) →
      handlePlayArtistIntent db U (some q) =
        Except.ok (AlexaResponse.play t (U.mp3 t.id) (U.art t.id)
          ⟨t.id, "artist::" ++ t.artistId⟩
          PlayBehavior.replaceAll 0 none (some (t.artist ++ " の曲を再生します。")))) ∧
    handlePlayPlaylistIntent db U none =
      Except.ok (AlexaResponse.speech "プレイリスト名を言ってください。" false) ∧
    (∀ pl pls t ts, q ≠ "" → db.searchPlaylistsByName q = pl :: pls → pl.trackIds ≠ [] →
      db.getPlaylistTracks pl.id = t :: ts →
      (∀ c ∈ t.id.toList, c.toNat < 256) → (∀ c ∈ pl.id.toList, c.toNat < 256) →
      handlePlayPlaylistIntent db U (some q) =
        Except.ok (AlexaResponse.play t (U.mp3 t.id) (U.art t.id)
          ⟨t.id, "playlist::" ++ pl.id⟩ PlayBehavior.replaceAll 0 none
          (some ("プレイリスト " ++ pl.name ++ " を再生します。")))) ∧
    (∀ t ts, db.getTracks = t :: ts → (∀ c ∈ t.id.toList, c.toNat < 256) →
      handlePlayAllIntent db U =
        Except.ok (AlexaResponse.play t (U.mp3 t.id) (U.art t.id) ⟨t.id, "all"⟩
          PlayBehavior.replaceAll 0 none (some (t.title ++ " を再生します。")))) ∧
    (db.getTracks = [] →
      handlePlayAllIntent db U =
        Except.ok (AlexaResponse.speech "再生できる曲がありません。" false)) := by
  refine ⟨rfl, rfl, ?_, ?_, ?_, ?_, rfl, ?_, ?_, ?_⟩
  · intro hq hsearch
    simp [handlePlaySongIntent, strTruthy, hq, hsearch, buildSpeechResponse]
  · intro t ts hq hsearch hid
    obtain ⟨e, he⟩ := encodeToken_isSome ⟨t.id, "single"⟩ hid
      (show ∀ c ∈ ("single" : String).toList, c.toNat < 256 by decide)
    simp [handlePlaySongIntent, strTruthy, hq, hsearch, buildPlayResponse, he,
      append_ne_empty_right t.title " を再生します。" (by decide)]
  · intro hq hsearch
    simp [handlePlayArtistIntent, strTruthy, hq, hsearch, buildSpeechResponse]
  · intro t ts hq hsearch hid haid
    obtain ⟨e, he⟩ := encodeToken_isSome ⟨t.id, "artist::" ++ t.artistId⟩ hid
      (append_lt "artist::" t.artistId (by decide) haid)
    simp [handlePlayArtistIntent, strTruthy, hq, hsearch, buildPlayResponse, he,
      append_ne_empty_right t.artist " の曲を再生します。" (by decide)]
  · intro pl pls t ts hq hsearch hne hpt hid hpid
    obtain ⟨e, he⟩ := encodeToken_isSome ⟨t.id, "playlist::" ++ pl.id⟩ hid
      (append_lt "playlist::" pl.id (by decide) hpid)
    simp [handlePlayPlaylistIntent, strTruthy, hq, hsearch, hpt, buildPlayResponse, he,
      List.length_eq_zero, hne,
      append_ne_empty_right ("プレイリスト " ++ pl.name) " を再生します。" (by decide)]
  · intro t ts htr hid
    obtain ⟨e, he⟩ := encodeToken_isSome ⟨t.id, "all"⟩ hid
      (show ∀ c ∈ ("all" : String).toList, c.toNat < 256 by decide)
    simp [handlePlayAllIntent, htr, buildPlayResponse, strTruthy, he,
      append_ne_empty_right t.title " を再生します。" (by decide)]
  · intro htr
    simp [handlePlayAllIntent, htr, buildSpeechResponse]

/-- Counterexamples to C8 as stated: a play-song request whose title search
finds no match answers with a spoken not-found message and no directive —
not with the play-everything fallback (shown alongside for contrast) — the
playlist intent with an empty slot asks for a name instead of falling back
to everything, and a matching track whose stored id holds the code unit
U+3042 makes the handler raise at `encodeToken` inside `buildPlayResponse`
instead of returning a Play directive. -/
theorem c8_counterexample :
    handlePlaySongIntent sampleDb ⟨fun s => s, fun s => s⟩ (some "zzz") =
      Except.ok (AlexaResponse.speech "zzz が見つかりませんでした。" false) ∧
    handlePlayAllIntent sampleDb ⟨fun s => s, fun s => s⟩ =
      Except.ok (AlexaResponse.play trackA "ta" "ta" ⟨"ta", "all"⟩ PlayBehavior.replaceAll 0
        none (some "Alpha を再生します。")) ∧
    handlePlayPlaylistIntent sampleDb ⟨fun s => s, fun s => s⟩ none =
      Except.ok (AlexaResponse.speech "プレイリスト名を言ってください。" false) ∧
    sampleDbWide.searchTracksByTitle "alp" = [trackWideId] ∧
    handlePlaySongIntent sampleDbWide ⟨fun s => s, fun s => s⟩ (some "alp") =
      Except.error () := by
  refine ⟨rfl, rfl, rfl, by decide, rfl⟩

/-- Witness for C8 (amended): the title query `alp` matches `Alpha`
case-insensitively and plays it with a confirmation utterance. -/
theorem c8_play_intents_witness :
    handlePlaySongIntent sampleDb ⟨fun s => s, fun s => s⟩ (some "alp") =
      Except.ok (AlexaResponse.play trackA "ta" "ta" ⟨"ta", "single"⟩
        PlayBehavior.replaceAll 0 none (some "Alpha を再生します。")) :=
  (c8_play_intents sampleDb ⟨fun s => s, fun s => s⟩ "alp").2.2.2.1
    trackA [] (by decide) (by decide) (by decide)
